import Mathlib

/-!
OZMTool `util.cpp`: DSDT locate/patch, FFS file builder and kext pipeline.

A shallow embedding of `src/OZMTool/util.cpp`.

Conventions of the embedding.

* A `QByteArray` is a list of bytes; a `QString` is a list of UTF-16 code units.
* The host is little-endian with a signed `char` (x86 / x86-64, the hosts the
  tool is built for; the structure overlays used at lines 399 and 360 of the
  source assume the same byte order as the UEFI formats, which is little-endian).
* `UINT32` / `INT32` values are `Nat` / `Int` with explicit reduction modulo `2^32`.
* A read outside a `QByteArray` through `QByteArray::at` (an assertion failure in
  a debug build of Qt, undefined in a release build) makes the embedded function
  return `none`.
* `printf` output is not modelled.
* Macros and helpers of headers that are not part of `src/` are definitions whose
  doc comment starts `Modelled from the spec:`; the macro `DSDT_HEADER_SZ` is a
  parameter of the two DSDT operations, and the Qt constructor `QUuid(QString)`
  is a parameter of `ffsCreate`.
* The function-local static of `ffsCreate` is explicit state.
* The file system, the plist parser and the Qt text conversions that
  `convertKext` relies on are the fields of `Env`; the template `kextGUID` of
  `util.h` is a parameter of `convertKext`.
-/

set_option autoImplicit false

namespace OZM

/-! ## Data model -/

/-- One byte of a buffer (an element of a `QByteArray`). -/
abbrev Byte := Fin 256

/-- Qt byte array: a finite sequence of bytes. -/
abbrev QByteArray := List Byte

/-- Qt string: a finite sequence of UTF-16 code units. -/
abbrev QString := List (Fin 65536)

/-- Modelled from the spec: the `ERR_*` return codes (`UINT8` macros of
`basetypes.h` / `util.h`, not part of `src/`).  Only the names used by
`util.cpp` are listed; the spec (section 7) treats them as distinct kinds. -/
inductive ErrCode where
  | ERR_SUCCESS
  | ERR_INVALID_PARAMETER
  | ERR_FILE_OPEN
  | ERR_FILE_WRITE
  | ERR_INVALID_FILE
  | ERR_FILE_NOT_FOUND
  | ERR_DIR_ALREADY_EXIST
  | ERR_DIR_CREATE
  | ERR_ERROR
  deriving DecidableEq, Repr

open ErrCode

/-- Modelled from the spec: `EFI_IMAGE_DOS_SIGNATURE` of `peimage.h` (not part of
`src/`), the DOS-executable magic: bytes `4D 5A` read as a little-endian
`UINT16`. -/
def EFI_IMAGE_DOS_SIGNATURE : Nat := 0x5A4D

/-- Modelled from the spec: `DSDT_HEADER` of `util.h` (not part of `src/`), the
4 ASCII bytes `DSDT` identifying the table. -/
def DSDT_HEADER : QByteArray := [0x44, 0x53, 0x44, 0x54]

/-- Modelled from the spec: `UNPATCHABLE_SECTION` of `util.h` (not part of
`src/`), the 4-byte ASCII literal `.ROM` (the name is the one printed by the
error message at line 459 of `util.cpp`). -/
def UNPATCHABLE_SECTION : QByteArray := [0x2E, 0x52, 0x4F, 0x4D]

/-! ## Machine integers -/

/-- Conversion of a C integer to `UINT32`. -/
def toUINT32 (x : Int) : Nat := (x % 2 ^ 32).toNat

/-- Conversion of a `UINT32` to `INT32` / `int` (two's complement). -/
def toINT32 (n : Nat) : Int :=
  if n % 2 ^ 32 < 2 ^ 31 then ((n % 2 ^ 32 : Nat) : Int) else ((n % 2 ^ 32 : Nat) : Int) - 2 ^ 32

/-- The value a `char` contributes to a `UINT32` sum: `char` is signed, so it is
first promoted to `int` (sign-extended) and then converted to `UINT32`. -/
def charToUINT32 (c : Byte) : Nat :=
  if c.val < 128 then c.val else c.val + (2 ^ 32 - 256)

/-- Byte swap of a 32-bit value (`qbswap<quint32>`). -/
def qbswap32 (v : Nat) : Nat :=
  (v % 256) * 2 ^ 24 + (v / 2 ^ 8 % 256) * 2 ^ 16 + (v / 2 ^ 16 % 256) * 2 ^ 8 + (v / 2 ^ 24 % 256)

/-- Qt `qFromBigEndian<quint32>`: on a little-endian host this is a byte swap. -/
def qFromBigEndian (v : Nat) : Nat := qbswap32 v

/-! ## `QByteArray` operations used by the source -/

/-- Whether `hay` begins with the bytes of `needle`. -/
def startsWith : QByteArray → QByteArray → Bool
  | _, [] => true
  | [], _ :: _ => false
  | h :: hs, n :: ns => h == n && startsWith hs ns

/-- Scan for the first occurrence of `needle`, counting positions from `i`. -/
def indexOfFrom (needle : QByteArray) : QByteArray → Nat → Int
  | [], i => if needle.isEmpty then (i : Int) else -1
  | b :: bs, i => if startsWith (b :: bs) needle then (i : Int) else indexOfFrom needle bs (i + 1)

/-- Qt `QByteArray::indexOf(const char *)`: position of the first occurrence of the
byte sequence, `-1` when there is none. -/
def indexOf (buf needle : QByteArray) : Int := indexOfFrom needle buf 0

/-- Qt `QByteArray::left(int len)`. -/
def left (buf : QByteArray) (len : Int) : QByteArray :=
  if len ≥ buf.length then buf
  else if len < 0 then []
  else buf.take len.toNat

/-- Qt `QByteArray::mid(int pos, int len)`; the one-argument call is `len = -1`. -/
def mid (buf : QByteArray) (pos len : Int) : QByteArray :=
  if buf.length = 0 ∨ pos ≥ buf.length then []
  else
    let len1 : Int := if len < 0 then (buf.length : Int) - pos else len
    let len2 : Int := if pos < 0 then len1 + pos else len1
    let pos2 : Int := if pos < 0 then 0 else pos
    let len3 : Int := if len2 + pos2 > buf.length then (buf.length : Int) - pos2 else len2
    (buf.drop pos2.toNat).take len3.toNat

/-- Qt `QByteArray::fill(char ch, int size)`: resize to `size` (kept when negative)
and set every byte to `ch`. -/
def fill (buf : QByteArray) (ch : Byte) (size : Int) : QByteArray :=
  List.replicate (if size < 0 then buf.length else size.toNat) ch

/-- Qt `QByteArray::clear()`. -/
def clear (_buf : QByteArray) : QByteArray := []

/-- The `e_magic` field of the `EFI_IMAGE_DOS_HEADER` overlaid on the buffer:
the first two bytes as a little-endian `UINT16`.  `QByteArray` data is followed
by a zero terminator, so a buffer shorter than two bytes never yields the magic
(its first or second byte reads as the terminator `0`). -/
def e_magic (buf : QByteArray) : Nat :=
  (buf[0]?.getD 0).val + 256 * (buf[1]?.getD 0).val

/-! ## `getUInt32` (lines 117-130) -/

/-- One step `tmp = (tmp << 8) + buf.at(i)` in `UINT32` arithmetic. -/
def shiftAdd (tmp : Nat) (c : Byte) : Nat := ((tmp * 256) % 2 ^ 32 + charToUINT32 c) % 2 ^ 32

/-- The function `getUInt32(buf, start, fromBE)`; `none` when one of the four reads is
outside the buffer. -/
def getUInt32 (buf : QByteArray) (start : Nat) (fromBE : Bool) : Option Nat :=
  match buf[start + 0]?, buf[start + 1]?, buf[start + 2]?, buf[start + 3]? with
  | some c0, some c1, some c2, some c3 =>
    let tmp := 0
    let tmp := shiftAdd tmp c0
    let tmp := shiftAdd tmp c1
    let tmp := shiftAdd tmp c2
    let tmp := shiftAdd tmp c3
    if fromBE then some (qFromBigEndian tmp) else some tmp
  | _, _, _, _ => none

/-! ## `extractDSDTfromAmiboardInfo` (lines 393-422) -/

/-- The function `extractDSDTfromAmiboardInfo(amiboardbuf, out)`: the return code
and the final contents of `out`.

`DSDT_HEADER_SZ` is the macro of `util.h` (not part of `src/`), the fixed offset
of the length field past the start of the signature; it is a parameter of the
embedding. -/
def extractDSDTfromAmiboardInfo (DSDT_HEADER_SZ : Nat) (amiboardbuf out : QByteArray) :
    Option (ErrCode × QByteArray) :=
  if e_magic amiboardbuf ≠ EFI_IMAGE_DOS_SIGNATURE then some (ERR_INVALID_FILE, out)
  else
    let offset : Int := indexOf amiboardbuf DSDT_HEADER
    if offset < 0 then some (ERR_FILE_NOT_FOUND, out)
    else
      match getUInt32 amiboardbuf (offset + (DSDT_HEADER_SZ : Int)).toNat true with
      | none => none
      | some size =>
        if size > toUINT32 ((amiboardbuf.length : Int) - offset) then
          some (ERR_INVALID_PARAMETER, out)
        else
          some (ERR_SUCCESS, out ++ mid amiboardbuf offset (toINT32 size))

/-! ## `injectDSDTintoAmiboardInfo` (lines 424-576) -/

/-- The function `injectDSDTintoAmiboardInfo(amiboardbuf, dsdtbuf, out)`: the
return code and the final contents of `out`.  When the new table is larger than
the old one the source only prints the PE headers and sections (lines 477-572,
no write to `out`) and reaches `return ERR_SUCCESS` at line 575.

`DSDT_HEADER_SZ` is the macro of `util.h` (not part of `src/`), the fixed offset
of the length field past the start of the signature; it is a parameter of the
embedding. -/
def injectDSDTintoAmiboardInfo (DSDT_HEADER_SZ : Nat) (amiboardbuf dsdtbuf out : QByteArray) :
    Option (ErrCode × QByteArray) :=
  if e_magic amiboardbuf ≠ EFI_IMAGE_DOS_SIGNATURE then some (ERR_INVALID_FILE, out)
  else
    let offset : Int := indexOf amiboardbuf DSDT_HEADER
    if offset < 0 then some (ERR_FILE_NOT_FOUND, out)
    else
      match getUInt32 amiboardbuf (offset + (DSDT_HEADER_SZ : Int)).toNat true with
      | none => none
      | some oldDSDTsize =>
        if oldDSDTsize > toUINT32 ((amiboardbuf.length : Int) - offset) then
          some (ERR_INVALID_PARAMETER, out)
        else if indexOf amiboardbuf UNPATCHABLE_SECTION > 0 then
          some (ERR_ERROR, out)
        else
          let newDSDTsize : Nat := toUINT32 dsdtbuf.length
          let diffDSDT : Int := toINT32 ((newDSDTsize + 2 ^ 32 - oldDSDTsize) % 2 ^ 32)
          if diffDSDT ≤ 0 then
            let padbytes : QByteArray := fill [] 0 (diffDSDT * (-1))
            let out := out ++ left amiboardbuf offset
            let out := out ++ dsdtbuf
            let out := out ++ padbytes
            let out := out ++ mid amiboardbuf (toINT32 (toUINT32 offset + oldDSDTsize)) (-1)
            some (ERR_SUCCESS, out)
          else
            some (ERR_SUCCESS, out)

/-! ## FFS structures and helpers (`ffs.h`, `ffs.cpp`) -/

/-- The low eight bits of a number, as a byte (the C cast `(UINT8) n`). -/
def toByte (n : Nat) : Byte := ⟨n % 256, Nat.mod_lt _ (by decide)⟩

/-- Modelled from the spec: `EFI_SECTION_PE32` of `ffs.h` (not part of `src/`),
the type tag of the content section. -/
def EFI_SECTION_PE32 : Byte := 0x10

/-- Modelled from the spec: `EFI_SECTION_USER_INTERFACE` of `ffs.h` (not part of
`src/`), the type tag of the name section. -/
def EFI_SECTION_USER_INTERFACE : Byte := 0x15

/-- Modelled from the spec: `EFI_FV_FILETYPE_FREEFORM` of `ffs.h` (not part of
`src/`), the fixed "freeform" file type tag. -/
def EFI_FV_FILETYPE_FREEFORM : Byte := 0x02

/-- Modelled from the spec: `EFI_FILE_HEADER_CONSTRUCTION` of `ffs.h` (not part
of `src/`), the "constructed" state flag. -/
def EFI_FILE_HEADER_CONSTRUCTION : Nat := 0x01

/-- Modelled from the spec: `EFI_FILE_HEADER_VALID` of `ffs.h` (not part of
`src/`), the "valid" state flag. -/
def EFI_FILE_HEADER_VALID : Nat := 0x02

/-- Modelled from the spec: `EFI_FILE_DATA_VALID` of `ffs.h` (not part of
`src/`), the "data valid" state flag. -/
def EFI_FILE_DATA_VALID : Nat := 0x04

/-- Modelled from the spec: `FFS_ATTRIB_CHECKSUM` of `ffs.h` (not part of
`src/`), the checksum-enabled attribute bit. -/
def FFS_ATTRIB_CHECKSUM : Nat := 0x40

/-- Modelled from the spec: `FFS_FIXED_CHECKSUM` of `ffs.h` (not part of
`src/`), the data-checksum sentinel of revision 1. -/
def FFS_FIXED_CHECKSUM : Byte := 0x5A

/-- Modelled from the spec: `FFS_FIXED_CHECKSUM2` of `ffs.h` (not part of
`src/`), the data-checksum sentinel of the other revision. -/
def FFS_FIXED_CHECKSUM2 : Byte := 0xAA

/-- Modelled from the spec: `ERASE_POLARITY_TRUE` of `ffs.h` (not part of
`src/`), the value of the erase-polarity flag that inverts the state bits. -/
def ERASE_POLARITY_TRUE : Nat := 1

/-- Modelled from the spec: `EFI_COMMON_SECTION_HEADER` of `ffs.h` (not part of
`src/`): `{Size[3], Type[1]}` (`Type` is a keyword of Lean, hence `Type_`).
`EFI_USER_INTERFACE_SECTION` has the same layout. -/
structure EFI_COMMON_SECTION_HEADER where
  Size : Byte × Byte × Byte
  Type_ : Byte

/-- The memory image of a section header (`sizeof = 4`). -/
def EFI_COMMON_SECTION_HEADER.bytes (h : EFI_COMMON_SECTION_HEADER) : QByteArray :=
  [h.Size.1, h.Size.2.1, h.Size.2.2, h.Type_]

/-- The value of `sizeof(EFI_COMMON_SECTION_HEADER)` and `sizeof(EFI_USER_INTERFACE_SECTION)`. -/
def sizeof_EFI_COMMON_SECTION_HEADER : Nat := 4

/-- The value of `sizeof(EFI_FFS_FILE_HEADER)`. -/
def sizeof_EFI_FFS_FILE_HEADER : Nat := 24

/-- Qt `QUuid`: the four data members. -/
structure QUuid where
  data1 : Nat
  data2 : Nat
  data3 : Nat
  data4 : Fin 8 → Byte

/-- The 16 bytes copied by `memcpy(&fileHeader->Name, &uuid.data1, sizeof(EFI_GUID))`:
the in-memory image of the `QUuid` members on the little-endian host. -/
def QUuid.memory (u : QUuid) : QByteArray :=
  [toByte u.data1, toByte (u.data1 / 2 ^ 8), toByte (u.data1 / 2 ^ 16), toByte (u.data1 / 2 ^ 24),
   toByte u.data2, toByte (u.data2 / 2 ^ 8),
   toByte u.data3, toByte (u.data3 / 2 ^ 8)] ++ List.ofFn u.data4

/-- Modelled from the spec: `EFI_FFS_FILE_HEADER` of `ffs.h` (not part of `src/`):
`{Name[16], Checksums[2], Type[1], Attributes[1], Size[3], State[1]}`. -/
structure EFI_FFS_FILE_HEADER where
  Name : QByteArray
  ChecksumHeader : Byte
  ChecksumFile : Byte
  Type_ : Byte
  Attributes : Byte
  Size : Byte × Byte × Byte
  State : Byte

/-- The memory image of a file header (`sizeof = 24` when `Name` has its 16 bytes). -/
def EFI_FFS_FILE_HEADER.bytes (h : EFI_FFS_FILE_HEADER) : QByteArray :=
  h.Name ++ [h.ChecksumHeader, h.ChecksumFile, h.Type_, h.Attributes,
    h.Size.1, h.Size.2.1, h.Size.2.2, h.State]

/-- Modelled from the spec: `uint32ToUint24` of `ffs.cpp` (not part of `src/`):
the 24-bit size field, least significant byte first. -/
def uint32ToUint24 (size : Nat) : Byte × Byte × Byte :=
  (toByte size, toByte (size / 2 ^ 8), toByte (size / 2 ^ 16))

/-- Sum of the bytes of a buffer. -/
def byteSum (buf : QByteArray) : Nat := (buf.map Fin.val).sum

/-- Modelled from the spec: `calculateChecksum8` of `ffs.cpp` (not part of
`src/`): the 8-bit additive checksum, the byte that makes the sum of the
covered bytes plus itself zero modulo 256. -/
def calculateChecksum8 (buffer : QByteArray) (bufferSize : Nat) : Byte :=
  toByte (0x100 - byteSum (buffer.take bufferSize) % 256)

/-- The bytes of `sectionName.utf16()`: each code unit in host (little-endian)
byte order, `sectionName.size() * 2` bytes, no terminator. -/
def utf16Bytes (s : QString) : QByteArray :=
  s.flatMap (fun c => [toByte c.val, toByte (c.val / 2 ^ 8)])

/-! ## `ffsCreate` (lines 315-391) -/

/-- Lines 320-349 of `ffsCreate`: the section stream `fileBody`, that is the
PE32 section (header and `body`), the zero padding to a multiple of 4 and the
user-interface section (header and the UTF-16 text of `sectionName`). -/
def ffsCreate_fileBody (body : QByteArray) (sectionName : QString) : QByteArray :=
  let fileBody : QByteArray := []
  -- FFS PE32 Section
  let PE32SectionHeader : EFI_COMMON_SECTION_HEADER :=
    { Size := uint32ToUint24 (toUINT32 (sizeof_EFI_COMMON_SECTION_HEADER + body.length)),
      Type_ := EFI_SECTION_PE32 }
  let fileBody := fileBody ++ PE32SectionHeader.bytes.take sizeof_EFI_COMMON_SECTION_HEADER
  let fileBody := fileBody ++ body
  -- FFS User Interface
  let bufSectionName : QByteArray := utf16Bytes sectionName
  let UserInterfaceSection : EFI_COMMON_SECTION_HEADER :=
    { Size := uint32ToUint24 (toUINT32 (sizeof_EFI_COMMON_SECTION_HEADER + bufSectionName.length)),
      Type_ := EFI_SECTION_USER_INTERFACE }
  -- Align for next section
  let alignment : Nat := fileBody.length % 4
  let fileBody :=
    if alignment ≠ 0 then fileBody ++ List.replicate (4 - alignment) (0 : Byte) else fileBody
  let fileBody := fileBody ++ UserInterfaceSection.bytes.take sizeof_EFI_COMMON_SECTION_HEADER
  fileBody ++ bufSectionName

/-- Lines 358-384 of `ffsCreate`: the file header, built from the parsed
identifier `uuid`, the value `size` of the static and the section stream. -/
def ffsCreate_fileHeader (uuid : QUuid) (size : Nat) (fileBody : QByteArray) :
    EFI_FFS_FILE_HEADER :=
  let revision : Nat := 0
  let erasePolarity : Nat := 0
  let attributes : Nat := 0x00 ||| (if erasePolarity = ERASE_POLARITY_TRUE then 0xFF else 0x00)
  let state : Nat :=
    EFI_FILE_HEADER_CONSTRUCTION ||| EFI_FILE_HEADER_VALID ||| EFI_FILE_DATA_VALID
  -- Invert state bits if erase polarity is true
  let state : Nat := if erasePolarity = ERASE_POLARITY_TRUE then 255 - state % 256 else state
  let fileHeader : EFI_FFS_FILE_HEADER :=
    { Name := uuid.memory
      ChecksumHeader := 0
      ChecksumFile := 0
      Type_ := EFI_FV_FILETYPE_FREEFORM
      Attributes := toByte attributes
      Size := uint32ToUint24 (toUINT32 (sizeof_EFI_FFS_FILE_HEADER + size))
      State := toByte state }
  -- Calculate header checksum
  let fileHeader : EFI_FFS_FILE_HEADER :=
    { fileHeader with
      ChecksumHeader := calculateChecksum8 fileHeader.bytes (sizeof_EFI_FFS_FILE_HEADER - 1) }
  -- Set data checksum
  if attributes &&& FFS_ATTRIB_CHECKSUM ≠ 0 then
    { fileHeader with ChecksumFile := calculateChecksum8 fileBody fileBody.length }
  else if revision = 1 then
    { fileHeader with ChecksumFile := FFS_FIXED_CHECKSUM }
  else
    { fileHeader with ChecksumFile := FFS_FIXED_CHECKSUM2 }

/-- The function `ffsCreate(body, guid, sectionName, out)`.

* `parseUuid` is the Qt constructor `QUuid(QString)`.
* `staticSize` is the function-local `const static UINT32 size` (line 354):
  `none` before the first call, `some s` once initialised; it is initialised
  from `fileBody.size()` by the first call only.

The result is the return code, the final contents of `out` and the static. -/
def ffsCreate (parseUuid : QString → QUuid) (staticSize : Option Nat)
    (body : QByteArray) (guid sectionName : QString) (out : QByteArray) :
    ErrCode × QByteArray × Option Nat :=
  let fileBody : QByteArray := ffsCreate_fileBody body sectionName
  -- FFS File
  let size : Nat :=
    match staticSize with
    | some s => s
    | none => toUINT32 fileBody.length
  let uuid : QUuid := parseUuid guid
  let fileHeader : EFI_FFS_FILE_HEADER := ffsCreate_fileHeader uuid size fileBody
  let out : QByteArray := clear out
  let out := out ++ fileHeader.bytes.take sizeof_EFI_FFS_FILE_HEADER
  let out := out ++ fileBody
  (ERR_SUCCESS, out, some size)

/-! ## Sample inputs -/

/-- A 16-byte module: magic `MZ`, the signature at offset 4, length bytes
`0C 00 00 00`, four more bytes. -/
def sampleModule : QByteArray :=
  [0x4D, 0x5A, 0, 0] ++ DSDT_HEADER ++ [12, 0, 0, 0] ++ [7, 7, 7, 7]

/-- A replacement table shorter than the table of `sampleModule`. -/
def sampleTable : QByteArray := [1, 2, 3]

/-- A replacement table one byte longer than the table of `sampleModule`. -/
def sampleLargeTable : QByteArray := List.replicate 13 1

/-- The byte sequence `needle` occurs in `buf` at index `k`. -/
def occursAt (buf needle : QByteArray) (k : Nat) : Prop :=
  (buf.drop k).take needle.length = needle

instance (buf needle : QByteArray) (k : Nat) : Decidable (occursAt buf needle k) :=
  inferInstanceAs (Decidable ((buf.drop k).take needle.length = needle))

/-- The first two bytes of the buffer are the DOS-executable magic `4D 5A`. -/
def hasDosMagic (buf : QByteArray) : Prop :=
  buf[0]? = some 0x4D ∧ buf[1]? = some 0x5A

instance (buf : QByteArray) : Decidable (hasDosMagic buf) :=
  inferInstanceAs (Decidable (buf[0]? = some 0x4D ∧ buf[1]? = some 0x5A))

/-- The module of the spec's example with the length bytes `00 00 02 00` of the
claim: magic `4D 5A` at offset 0, the signature at `0x100`, 768 bytes in all.
The length bytes stand at `0x104` and again at `0x108`, so the module reads the
same with the length field 4 or 8 bytes past the start of the signature. -/
def exampleModuleBE : QByteArray :=
  [0x4D, 0x5A] ++ List.replicate 254 0 ++ DSDT_HEADER ++ [0x00, 0x00, 0x02, 0x00]
    ++ [0x00, 0x00, 0x02, 0x00] ++ List.replicate 500 0xEE

/-- The same module with the length bytes `00 02 00 00`. -/
def exampleModuleLE : QByteArray :=
  [0x4D, 0x5A] ++ List.replicate 254 0 ++ DSDT_HEADER ++ [0x00, 0x02, 0x00, 0x00]
    ++ [0x00, 0x02, 0x00, 0x00] ++ List.replicate 500 0xEE

/-- A 16-byte module like `sampleModule` that also holds the marker `.ROM`
(offset 12). -/
def sampleRomModule : QByteArray :=
  [0x4D, 0x5A, 0, 0] ++ DSDT_HEADER ++ [12, 0, 0, 0] ++ UNPATCHABLE_SECTION

/-- A buffer with a valid magic and no signature. -/
def sampleNoTable : QByteArray := [0x4D, 0x5A, 0x44, 0x53, 0x44, 0x00, 0x54]

/-- A buffer that holds a whole table but does not begin with the magic. -/
def sampleBadMagic : QByteArray :=
  [0x5A, 0x4D, 0, 0] ++ DSDT_HEADER ++ [12, 0, 0, 0] ++ [7, 7, 7, 7]

/-- A `QUuid(QString)` that returns the null identifier for every text. -/
def nullUuid : QString → QUuid := fun _ => ⟨0, 0, 0, fun _ => 0⟩

/-- The display name `AB`. -/
def sampleName : QString := [0x41, 0x42]

/-- A well-formed table of `0x8010 = 32784` bytes: the signature, the length
bytes `10 80 00 00` (the little-endian value `0x8010`) right after it, and 32776
more bytes. -/
def wellFormedTable : QByteArray :=
  (DSDT_HEADER ++ [0x10, 0x80, 0x00, 0x00]) ++ List.replicate 32776 0x55

/-- A module of 65572 bytes that holds a table of `0x10020 = 65568` bytes at
offset 4 (length bytes `20 00 01 00` right after the signature). -/
def largeModule : QByteArray :=
  ([0x4D, 0x5A, 0, 0] ++ DSDT_HEADER ++ [0x20, 0x00, 0x01, 0x00]) ++ List.replicate 65560 0xAA

/-! ## Decoding of the FFS size fields -/

/-- Modelled from the spec: `uint24ToUint32` of `ffs.cpp` (not part of `src/`):
decoding of a 24-bit size field, least significant byte first. -/
def uint24ToUint32 (ffsSize : Byte × Byte × Byte) : Nat :=
  ffsSize.2.2.val * 2 ^ 16 + ffsSize.2.1.val * 2 ^ 8 + ffsSize.1.val

/-- The three bytes at offset `off` of `buf`: the `Size[3]` field of a section
header that starts at `off`, or of the file header when `off = 20`. -/
def sizeFieldAt (buf : QByteArray) (off : Nat) : Option (Byte × Byte × Byte) :=
  match buf[off]?, buf[off + 1]?, buf[off + 2]? with
  | some a, some b, some c => some (a, b, c)
  | _, _, _ => none

/-! ## Text -/

/-- The code units of an ASCII string literal of the source. -/
def qs (s : String) : QString := s.toList.map (fun c => (Fin.ofNat c.toNat : Fin 65536))

/-- Qt `QString::toUpper()` on ASCII text: the letters `a`-`z` become `A`-`Z`,
every other code unit is kept. -/
def toUpper (s : QString) : QString :=
  s.map (fun c => if 0x61 ≤ c.val ∧ c.val ≤ 0x7A then (Fin.ofNat (c.val - 0x20) : Fin 65536) else c)

/-- The lower-case hexadecimal digit of `d < 16`. -/
def hexDigitChar (d : Nat) : Fin 65536 :=
  if d < 10 then Fin.ofNat (0x30 + d) else Fin.ofNat (0x61 + (d - 10))

/-- The hexadecimal digits of `n`, most significant first, in front of `acc`;
at most `fuel` digits. -/
def toHexAux : Nat → Nat → QString → QString
  | 0, _, acc => acc
  | fuel + 1, n, acc =>
    if n / 16 = 0 then hexDigitChar (n % 16) :: acc
    else toHexAux fuel (n / 16) (hexDigitChar (n % 16) :: acc)

/-- The text that `QString::arg(int a, 1, 16)` substitutes: `a` is widened to
`qlonglong` and, the base not being 10, printed as an unsigned 64-bit number in
lower-case hexadecimal (at least one digit, so the field width 1 never pads). -/
def argHex (a : Int) : QString := toHexAux 16 ((a % 2 ^ 64).toNat) []

/-- Modelled from the spec: `kextGUID` of `util.h` (not part of `src/`), "a fixed
template GUID with its low hex nibble replaced by index": the text before and
the text after the place marker `%1` of the template. -/
structure GuidTemplate where
  before : QString
  after : QString

/-- Qt `QString::arg` on the template: the place marker is replaced by `text`. -/
def GuidTemplate.arg (t : GuidTemplate) (text : QString) : QString :=
  t.before ++ text ++ t.after

/-- Whether a code unit is a hexadecimal digit. -/
def isHexDigit (c : Fin 65536) : Bool :=
  (0x30 ≤ c.val && c.val ≤ 0x39) || (0x41 ≤ c.val && c.val ≤ 0x46)
    || (0x61 ≤ c.val && c.val ≤ 0x66)

/-- Modelled from the spec: the textual form of an identifier that `parse`
accepts (section 4.2): 36 characters, dashes at positions 8, 13, 18 and 23,
hexadecimal digits elsewhere. -/
def isGuidText (s : QString) : Bool :=
  s.length == 36 &&
    (List.range 36).all (fun i =>
      match s[i]? with
      | some c => if i = 8 ∨ i = 13 ∨ i = 18 ∨ i = 23 then c.val == 0x2D else isHexDigit c
      | none => false)

/-! ## External collaborators -/

/-- The collaborators of the kext pipeline that are outside `util.cpp`: the file
system as seen through Qt, the plist parser and the Qt text and identifier
conversions.

* `filePath dir name` is `QDir(dir).filePath(name)`.
* `dirExists` is `QDir::exists()`, `fileExists` is `QFileInfo::exists()`.
* `readAll path` is the content read by `QFile::open(ReadOnly)` and `readAll()`,
  `none` when the file cannot be opened.
* `plistValue plist key` is `PListParser::parsePList(plist).toMap()` at `key`,
  converted by `toString()`; `none` when the map does not contain the key.
* `printable s` is the text that `QString::sprintf` substitutes for `%s` when it
  is given `qPrintable(s)` (the local 8-bit encoding of `s` as a C string).
* `parseUuid` is the constructor `QUuid(QString)`. -/
structure Env where
  filePath : QString → QString → QString
  dirExists : QString → Bool
  fileExists : QString → Bool
  readAll : QString → Option QByteArray
  plistValue : QByteArray → QString → Option QString
  printable : QString → QString
  parseUuid : QString → QUuid

/-! ## `fileOpen` (lines 25-44) -/

/-- The function `fileOpen(path, buf)`: the return code and the final contents
of `buf`. -/
def fileOpen (env : Env) (path : QString) (buf : QByteArray) : ErrCode × QByteArray :=
  if !env.fileExists path then (ERR_FILE_NOT_FOUND, buf)
  else
    match env.readAll path with
    | none => (ERR_FILE_OPEN, buf)
    | some content =>
      let buf := clear buf
      let buf := buf ++ content
      (ERR_SUCCESS, buf)

/-! ## `plistReadExecName`, `plistReadBundleVersion` (lines 146-184) -/

/-- The function `plistReadExecName(plist, name)`: the return code and the final
contents of `name`. -/
def plistReadExecName (env : Env) (plist : QByteArray) (name : QString) : ErrCode × QString :=
  let execIdentifier : QString := qs "CFBundleExecutable"
  let plistExec : QString := []
  let plistExec : QString :=
    match env.plistValue plist execIdentifier with
    | some v => v
    | none => plistExec
  if plistExec.isEmpty then (ERR_ERROR, name)
  else (ERR_SUCCESS, plistExec)

/-- The function `plistReadBundleVersion(plist, version)`: the return code and
the final contents of `version`. -/
def plistReadBundleVersion (env : Env) (plist : QByteArray) (_version : QString) :
    ErrCode × QString :=
  let versionIdentifier : QString := qs "CFBundleShortVersionString"
  let plistVersion : QString := []
  let plistVersion : QString :=
    match env.plistValue plist versionIdentifier with
    | some v => v
    | none => plistVersion
  if plistVersion.isEmpty then (ERR_ERROR, qs "?")
  else (ERR_SUCCESS, plistVersion)

/-! ## `convertKext` (lines 228-313) -/

/-- The function `convertKext(input, kextIndex, basename, out)`: the return
code, the final contents of `out` and the static of `ffsCreate`.

`kextGUID` is the template of `util.h`; `staticSize` is the static of
`ffsCreate` on entry. -/
def convertKext (env : Env) (kextGUID : GuidTemplate) (staticSize : Option Nat)
    (input : QString) (kextIndex : Int) (basename : QString) (out : QByteArray) :
    ErrCode × QByteArray × Option Nat :=
  let nullterminator : Byte := 0
  -- Check all folders in input-dir
  if kextIndex > 0xF then (ERR_ERROR, out, staticSize)
  else
    let dir : QString := input
    let dir : QString := env.filePath dir (qs "Contents")
    let plistPath : QString := env.filePath dir (qs "Info.plist")
    let dir : QString := env.filePath dir (qs "MacOS")
    if !env.dirExists dir then (ERR_ERROR, out, staticSize)
    else if !env.fileExists plistPath then (ERR_ERROR, out, staticSize)
    else
      let (ret, plistbuf) := fileOpen env plistPath []
      if ret ≠ ERR_SUCCESS then (ret, out, staticSize)
      else
        let (ret, execName) := plistReadExecName env plistbuf []
        if ret ≠ ERR_SUCCESS then (ret, out, staticSize)
        else
          let binaryPath : QString := env.filePath dir execName
          if !env.fileExists binaryPath then (ERR_ERROR, out, staticSize)
          else
            let (ret, binarybuf) := fileOpen env binaryPath []
            if ret ≠ ERR_SUCCESS then (ERR_ERROR, out, staticSize)
            else
              let (ret, bundleVersion) := plistReadBundleVersion env plistbuf []
              let sectionName : QString :=
                if ret ≠ ERR_SUCCESS then basename
                else env.printable basename ++ qs ".Rev-" ++ env.printable bundleVersion
              let guid : QString := toUpper (kextGUID.arg (argHex kextIndex))
              let toConvertBinary : QByteArray := []
              let toConvertBinary := toConvertBinary ++ plistbuf
              let toConvertBinary := toConvertBinary ++ [nullterminator]
              let toConvertBinary := toConvertBinary ++ binarybuf
              let (ret, out, staticSize) :=
                ffsCreate env.parseUuid staticSize toConvertBinary guid sectionName out
              if ret ≠ ERR_SUCCESS then (ERR_ERROR, out, staticSize)
              else (ERR_SUCCESS, out, staticSize)

/-! ## Sample bundle -/

/-- The template `DADE100%1-1B31-4FE4-8557-26FCEFC78275`. -/
def sampleTemplate : GuidTemplate :=
  { before := qs "DADE100", after := qs "-1B31-4FE4-8557-26FCEFC78275" }

/-- A host whose only bundle is `K`: `K/Contents/Info.plist` holds the bytes
`01 02` and names the executable `Foo` with version `1.2`;
`K/Contents/MacOS/Foo` holds the bytes `03 04 05`. -/
def sampleEnv : Env :=
  { filePath := fun dir name => dir ++ qs "/" ++ name
    dirExists := fun p => p == qs "K/Contents/MacOS"
    fileExists := fun p => p == qs "K/Contents/Info.plist" || p == qs "K/Contents/MacOS/Foo"
    readAll := fun p =>
      if p == qs "K/Contents/Info.plist" then some [1, 2]
      else if p == qs "K/Contents/MacOS/Foo" then some [3, 4, 5]
      else none
    plistValue := fun _ key =>
      if key == qs "CFBundleExecutable" then some (qs "Foo")
      else if key == qs "CFBundleShortVersionString" then some (qs "1.2")
      else none
    printable := fun s => s
    parseUuid := nullUuid }

/-- The host of `sampleEnv` without the executable `K/Contents/MacOS/Foo`. -/
def sampleEnvNoBinary : Env :=
  { sampleEnv with
    fileExists := fun p => p == qs "K/Contents/Info.plist"
    readAll := fun p => if p == qs "K/Contents/Info.plist" then some [1, 2] else none }

/-- The host of `sampleEnv` with a plist that has no version field. -/
def sampleEnvNoVersion : Env :=
  { sampleEnv with
    plistValue := fun _ key => if key == qs "CFBundleExecutable" then some (qs "Foo") else none }

/-! ## Names used by the statements about `convertKext` -/

/-- The path `<input>/Contents/Info.plist` as `convertKext` builds it. -/
def plistPathOf (env : Env) (input : QString) : QString :=
  env.filePath (env.filePath input (qs "Contents")) (qs "Info.plist")

/-- The path `<input>/Contents/MacOS` as `convertKext` builds it. -/
def macOSDirOf (env : Env) (input : QString) : QString :=
  env.filePath (env.filePath input (qs "Contents")) (qs "MacOS")

/-- The upper-case hexadecimal digit of `d < 16`. -/
def upperHexDigitChar (d : Nat) : Fin 65536 :=
  if d < 10 then Fin.ofNat (0x30 + d) else Fin.ofNat (0x41 + (d - 10))

/-! ## Auxiliary lemmas: machine integers -/

theorem toUINT32_natCast (n : Nat) (h : n < 2 ^ 32) : toUINT32 (n : Int) = n := by
  unfold toUINT32
  omega

theorem toUINT32_sub (a b : Nat) (hb : b ≤ a) (h : a < 2 ^ 32) :
    toUINT32 ((a : Int) - (b : Int)) = a - b := by
  unfold toUINT32
  omega

theorem toINT32_natCast (n : Nat) (h : n < 2 ^ 31) : toINT32 n = (n : Int) := by
  unfold toINT32
  have h1 : n % 2 ^ 32 = n := Nat.mod_eq_of_lt (by omega)
  rw [h1, if_pos h]

/-! ## Auxiliary lemmas: `QByteArray` operations -/

theorem left_natCast (buf : QByteArray) (n : Nat) : left buf (n : Int) = buf.take n := by
  unfold left
  split
  · rename_i h
    have : buf.length ≤ n := by omega
    rw [List.take_of_length_le this]
  · rw [if_neg (by omega)]
    simp

theorem mid_natCast (buf : QByteArray) (p l : Nat) :
    mid buf (p : Int) (l : Int) = (buf.drop p).take l := by
  unfold mid
  split
  · rename_i h
    have : buf.length ≤ p := by omega
    rw [List.drop_of_length_le this]
    simp
  · rename_i h
    simp only [not_or] at h
    have h1 : ¬ ((l : Int) < 0) := by omega
    have h2 : ¬ ((p : Int) < 0) := by omega
    simp only [h1, h2, if_false]
    split
    · rename_i h3
      have e : ((buf.length : Int) - (p : Int)).toNat = buf.length - p := by omega
      rw [Int.toNat_ofNat, e]
      rw [List.take_of_length_le (by simp), List.take_of_length_le (by simp; omega)]
    · simp

theorem mid_rest (buf : QByteArray) (p : Nat) : mid buf (p : Int) (-1) = buf.drop p := by
  unfold mid
  split
  · rename_i h
    have : buf.length ≤ p := by omega
    rw [List.drop_of_length_le this]
  · rename_i h
    simp only [not_or] at h
    have h2 : ¬ ((p : Int) < 0) := by omega
    have h1 : ((-1 : Int) < 0) := by omega
    simp only [h1, h2, if_true, if_false]
    have e : ((buf.length : Int) - (p : Int)).toNat = buf.length - p := by omega
    split
    · rw [Int.toNat_ofNat, e, List.take_of_length_le (by simp)]
    · rw [Int.toNat_ofNat, e, List.take_of_length_le (by simp)]

theorem fill_natCast (buf : QByteArray) (ch : Byte) (n : Nat) :
    fill buf ch (n : Int) = List.replicate n ch := by
  unfold fill
  rw [if_neg (by omega)]
  simp

theorem getUInt32_some_bound {buf : QByteArray} {start : Nat} {fromBE : Bool} {v : Nat}
    (h : getUInt32 buf start fromBE = some v) : start + 3 < buf.length := by
  unfold getUInt32 at h
  split at h
  · rename_i c0 c1 c2 c3 h0 h1 h2 h3
    have := List.getElem?_eq_some_iff.mp h3
    obtain ⟨hlt, _⟩ := this
    exact hlt
  · exact absurd h (by simp)

theorem getUInt32_lt {buf : QByteArray} {start : Nat} {fromBE : Bool} {v : Nat}
    (h : getUInt32 buf start fromBE = some v) : v < 2 ^ 32 := by
  unfold getUInt32 at h
  split at h
  · split at h
    · simp only [Option.some.injEq] at h
      subst h
      unfold qFromBigEndian qbswap32
      omega
    · simp only [Option.some.injEq] at h
      subst h
      unfold shiftAdd
      omega
  · exact absurd h (by simp)

/-- The no-growth path of `injectDSDTintoAmiboardInfo` in closed form. -/
theorem inject_no_growth (DSDT_HEADER_SZ : Nat) (amiboardbuf dsdtbuf out : QByteArray) (O S : Nat)
    (hlen : amiboardbuf.length < 2 ^ 31)
    (hmagic : e_magic amiboardbuf = EFI_IMAGE_DOS_SIGNATURE)
    (hoff : indexOf amiboardbuf DSDT_HEADER = (O : Int))
    (hsize : getUInt32 amiboardbuf (O + DSDT_HEADER_SZ) true = some S)
    (hfit : S ≤ amiboardbuf.length - O)
    (hmark : indexOf amiboardbuf UNPATCHABLE_SECTION ≤ 0)
    (hnew : dsdtbuf.length ≤ S) :
    injectDSDTintoAmiboardInfo DSDT_HEADER_SZ amiboardbuf dsdtbuf out =
      some (ERR_SUCCESS,
        out ++ amiboardbuf.take O ++ dsdtbuf ++ List.replicate (S - dsdtbuf.length) 0
          ++ amiboardbuf.drop (O + S)) := by
  have hb := getUInt32_some_bound hsize
  have e1 : ((O : Int) + (DSDT_HEADER_SZ : Int)).toNat = O + DSDT_HEADER_SZ := by
    omega
  have e2 : toUINT32 ((amiboardbuf.length : Int) - (O : Int)) = amiboardbuf.length - O :=
    toUINT32_sub _ _ (by omega) (by omega)
  have e3 : toUINT32 (dsdtbuf.length : Int) = dsdtbuf.length :=
    toUINT32_natCast _ (by omega)
  have e4 : toINT32 ((dsdtbuf.length + 2 ^ 32 - S) % 2 ^ 32)
      = -((S - dsdtbuf.length : Nat) : Int) := by
    unfold toINT32
    by_cases hz : dsdtbuf.length = S
    · subst hz
      simp
    · have hlt : dsdtbuf.length < S := by omega
      have : (dsdtbuf.length + 2 ^ 32 - S) % 2 ^ 32 = dsdtbuf.length + 2 ^ 32 - S :=
        Nat.mod_eq_of_lt (by omega)
      rw [Nat.mod_mod, this, if_neg (by omega)]
      omega
  have e5 : toINT32 (toUINT32 (O : Int) + S) = ((O + S : Nat) : Int) := by
    rw [toUINT32_natCast _ (by omega)]
    exact toINT32_natCast _ (by omega)
  unfold injectDSDTintoAmiboardInfo
  simp only [hmagic, ne_eq, not_true_eq_false, if_false, hoff, e1, hsize, e2, e3, e4, e5]
  rw [if_neg (by omega), if_neg (by omega), if_neg (by omega), if_pos (by omega)]
  have e6 : -((S - dsdtbuf.length : Nat) : Int) * (-1) = ((S - dsdtbuf.length : Nat) : Int) := by
    omega
  rw [e6, fill_natCast, left_natCast, mid_rest]

/-- The growth path of `injectDSDTintoAmiboardInfo` in closed form. -/
theorem inject_growth (DSDT_HEADER_SZ : Nat) (amiboardbuf dsdtbuf out : QByteArray) (O S : Nat)
    (hlen : amiboardbuf.length < 2 ^ 31)
    (hdlen : dsdtbuf.length < 2 ^ 31)
    (hmagic : e_magic amiboardbuf = EFI_IMAGE_DOS_SIGNATURE)
    (hoff : indexOf amiboardbuf DSDT_HEADER = (O : Int))
    (hsize : getUInt32 amiboardbuf (O + DSDT_HEADER_SZ) true = some S)
    (hfit : S ≤ amiboardbuf.length - O)
    (hmark : indexOf amiboardbuf UNPATCHABLE_SECTION ≤ 0)
    (hnew : S < dsdtbuf.length) :
    injectDSDTintoAmiboardInfo DSDT_HEADER_SZ amiboardbuf dsdtbuf out = some (ERR_SUCCESS, out) := by
  have hb := getUInt32_some_bound hsize
  have e1 : ((O : Int) + (DSDT_HEADER_SZ : Int)).toNat = O + DSDT_HEADER_SZ := by
    omega
  have e2 : toUINT32 ((amiboardbuf.length : Int) - (O : Int)) = amiboardbuf.length - O :=
    toUINT32_sub _ _ (by omega) (by omega)
  have e3 : toUINT32 (dsdtbuf.length : Int) = dsdtbuf.length :=
    toUINT32_natCast _ (by omega)
  have e4 : toINT32 ((dsdtbuf.length + 2 ^ 32 - S) % 2 ^ 32)
      = ((dsdtbuf.length - S : Nat) : Int) := by
    have : (dsdtbuf.length + 2 ^ 32 - S) % 2 ^ 32 = dsdtbuf.length - S := by omega
    rw [this]
    exact toINT32_natCast _ (by omega)
  unfold injectDSDTintoAmiboardInfo
  simp only [hmagic, ne_eq, not_true_eq_false, if_false, hoff, e1, hsize, e2, e3, e4]
  rw [if_neg (by omega), if_neg (by omega), if_neg (by omega), if_neg (by omega)]


/-- The sign extension of `char` in `getUInt32`: a byte above `0x7F` in one of
the last three positions disturbs the byte before it; the length bytes
`12 B4 00 00` are read as `0xB411`, one less than their little-endian value
`0xB412`. -/
theorem getUInt32_sign_extension :
    getUInt32 [0x12, 0xB4, 0x00, 0x00] 0 true = some 0xB411 := by
  decide

/-! ## Auxiliary lemmas: signature scan -/

theorem startsWith_iff (hay needle : QByteArray) :
    startsWith hay needle = true ↔ hay.take needle.length = needle := by
  induction needle generalizing hay with
  | nil => simp [startsWith]
  | cons n ns ih =>
    cases hay with
    | nil => simp [startsWith]
    | cons h hs =>
      simp only [startsWith, Bool.and_eq_true, beq_iff_eq, List.length_cons, List.take_succ_cons,
        List.cons.injEq, ih]

theorem startsWith_drop_iff (buf needle : QByteArray) (k : Nat) :
    startsWith (buf.drop k) needle = true ↔ occursAt buf needle k :=
  startsWith_iff _ _

theorem indexOfFrom_spec (needle : QByteArray) (hne : needle ≠ []) (hay : QByteArray) (i : Nat) :
    (indexOfFrom needle hay i = -1 ∧ ∀ k, ¬ occursAt hay needle k) ∨
    (∃ k, indexOfFrom needle hay i = ((i + k : Nat) : Int) ∧ occursAt hay needle k ∧
      ∀ j, j < k → ¬ occursAt hay needle j) := by
  induction hay generalizing i with
  | nil =>
    left
    constructor
    · cases needle with
      | nil => exact absurd rfl hne
      | cons n ns => simp [indexOfFrom]
    · intro k hk
      unfold occursAt at hk
      simp at hk
      exact hne hk
  | cons b bs ih =>
    by_cases h0 : startsWith (b :: bs) needle = true
    · right
      refine ⟨0, ?_, ?_, ?_⟩
      · simp [indexOfFrom, h0]
      · exact (startsWith_drop_iff (b :: bs) needle 0).mp (by simpa using h0)
      · intro j hj
        omega
    · have hstep : indexOfFrom needle (b :: bs) i = indexOfFrom needle bs (i + 1) := by
        simp [indexOfFrom, h0]
      have h0' : ¬ occursAt (b :: bs) needle 0 := by
        intro hc
        exact h0 (by simpa using (startsWith_drop_iff (b :: bs) needle 0).mpr hc)
      rcases ih (i + 1) with ⟨h1, h2⟩ | ⟨k, h1, h2, h3⟩
      · left
        refine ⟨by rw [hstep, h1], ?_⟩
        intro k
        cases k with
        | zero => exact h0'
        | succ k => exact h2 k
      · right
        refine ⟨k + 1, ?_, ?_, ?_⟩
        · rw [hstep, h1]
          congr 1
          omega
        · exact h2
        · intro j hj
          cases j with
          | zero => exact h0'
          | succ j => exact h3 j (by omega)

theorem occursAt_bound {buf needle : QByteArray} {k : Nat} (h : occursAt buf needle k) :
    k + needle.length ≤ buf.length ∨ needle = [] := by
  unfold occursAt at h
  have := congrArg List.length h
  simp only [List.length_take, List.length_drop] at this
  by_cases hn : needle.length = 0
  · right
    exact List.length_eq_zero.mp hn
  · left
    omega

/-- The value of `indexOf` is `-1` exactly when the sequence occurs nowhere. -/
theorem indexOf_eq_neg_one_iff (buf needle : QByteArray) (hne : needle ≠ []) :
    indexOf buf needle = -1 ↔ ∀ k, ¬ occursAt buf needle k := by
  unfold indexOf
  rcases indexOfFrom_spec needle hne buf 0 with ⟨h1, h2⟩ | ⟨k, h1, h2, h3⟩
  · exact ⟨fun _ => h2, fun _ => h1⟩
  · constructor
    · intro h
      rw [h1] at h
      omega
    · intro h
      exact absurd h2 (h k)

/-- A non-negative value of `indexOf` is the least index of an occurrence. -/
theorem indexOf_eq_natCast_iff (buf needle : QByteArray) (hne : needle ≠ []) (O : Nat) :
    indexOf buf needle = (O : Int) ↔
      (occursAt buf needle O ∧ ∀ j, j < O → ¬ occursAt buf needle j) := by
  unfold indexOf
  rcases indexOfFrom_spec needle hne buf 0 with ⟨h1, h2⟩ | ⟨k, h1, h2, h3⟩
  · constructor
    · intro h
      rw [h1] at h
      omega
    · intro h
      exact absurd h.1 (h2 O)
  · constructor
    · intro h
      rw [h1] at h
      have : k = O := by omega
      subst this
      exact ⟨h2, h3⟩
    · intro h
      rw [h1]
      have : k = O := by
        rcases Nat.lt_trichotomy k O with hlt | heq | hgt
        · exact absurd h2 (h.2 k hlt)
        · exact heq
        · exact absurd h.1 (h3 O hgt)
      subst this
      simp

/-- The value of `indexOf` is `-1` or a natural number. -/
theorem indexOf_cases (buf needle : QByteArray) (hne : needle ≠ []) :
    indexOf buf needle = -1 ∨ ∃ O : Nat, indexOf buf needle = (O : Int) := by
  unfold indexOf
  rcases indexOfFrom_spec needle hne buf 0 with ⟨h1, _⟩ | ⟨k, h1, _, _⟩
  · exact Or.inl h1
  · exact Or.inr ⟨0 + k, h1⟩

theorem DSDT_HEADER_ne_nil : DSDT_HEADER ≠ [] := by decide

theorem UNPATCHABLE_SECTION_ne_nil : UNPATCHABLE_SECTION ≠ [] := by decide

/-- The magic check of the source passes exactly on buffers that begin `4D 5A`. -/
theorem e_magic_eq_iff (buf : QByteArray) :
    e_magic buf = EFI_IMAGE_DOS_SIGNATURE ↔ hasDosMagic buf := by
  unfold e_magic EFI_IMAGE_DOS_SIGNATURE hasDosMagic
  rcases buf with _ | ⟨b0, _ | ⟨b1, rest⟩⟩
  · simp
  · simp
    have := b0.isLt
    omega
  · simp only [List.getElem?_cons_zero, Option.getD_some, List.getElem?_cons_succ,
      Option.some.injEq]
    have h0 := b0.isLt
    have h1 := b1.isLt
    constructor
    · intro h
      constructor
      · apply Fin.ext
        show b0.val = 0x4D
        omega
      · apply Fin.ext
        show b1.val = 0x5A
        omega
    · rintro ⟨rfl, rfl⟩
      rfl

/-! ## Closed forms of the two DSDT operations once the signature is located -/

theorem indexOf_DSDT_bound {buf : QByteArray} {O : Nat}
    (hoff : indexOf buf DSDT_HEADER = (O : Int)) : O + 4 ≤ buf.length := by
  have h := ((indexOf_eq_natCast_iff buf DSDT_HEADER DSDT_HEADER_ne_nil O).mp hoff).1
  rcases occursAt_bound h with h | h
  · simpa [DSDT_HEADER] using h
  · exact absurd h DSDT_HEADER_ne_nil

theorem extract_bad_magic (DSDT_HEADER_SZ : Nat) (amiboardbuf out : QByteArray)
    (hmagic : e_magic amiboardbuf ≠ EFI_IMAGE_DOS_SIGNATURE) :
    extractDSDTfromAmiboardInfo DSDT_HEADER_SZ amiboardbuf out = some (ERR_INVALID_FILE, out) := by
  unfold extractDSDTfromAmiboardInfo
  rw [if_pos hmagic]

theorem inject_bad_magic (DSDT_HEADER_SZ : Nat) (amiboardbuf dsdtbuf out : QByteArray)
    (hmagic : e_magic amiboardbuf ≠ EFI_IMAGE_DOS_SIGNATURE) :
    injectDSDTintoAmiboardInfo DSDT_HEADER_SZ amiboardbuf dsdtbuf out = some (ERR_INVALID_FILE, out) := by
  unfold injectDSDTintoAmiboardInfo
  rw [if_pos hmagic]

theorem extract_not_found (DSDT_HEADER_SZ : Nat) (amiboardbuf out : QByteArray)
    (hmagic : e_magic amiboardbuf = EFI_IMAGE_DOS_SIGNATURE)
    (hoff : indexOf amiboardbuf DSDT_HEADER = -1) :
    extractDSDTfromAmiboardInfo DSDT_HEADER_SZ amiboardbuf out = some (ERR_FILE_NOT_FOUND, out) := by
  unfold extractDSDTfromAmiboardInfo
  simp [hmagic, hoff]

theorem inject_not_found (DSDT_HEADER_SZ : Nat) (amiboardbuf dsdtbuf out : QByteArray)
    (hmagic : e_magic amiboardbuf = EFI_IMAGE_DOS_SIGNATURE)
    (hoff : indexOf amiboardbuf DSDT_HEADER = -1) :
    injectDSDTintoAmiboardInfo DSDT_HEADER_SZ amiboardbuf dsdtbuf out = some (ERR_FILE_NOT_FOUND, out) := by
  unfold injectDSDTintoAmiboardInfo
  simp [hmagic, hoff]

/-- The result of `extractDSDTfromAmiboardInfo` with the magic valid and the signature found
at `O`. -/
theorem extract_at (DSDT_HEADER_SZ : Nat) (amiboardbuf out : QByteArray) (O : Nat)
    (hlen : amiboardbuf.length < 2 ^ 31)
    (hmagic : e_magic amiboardbuf = EFI_IMAGE_DOS_SIGNATURE)
    (hoff : indexOf amiboardbuf DSDT_HEADER = (O : Int)) :
    extractDSDTfromAmiboardInfo DSDT_HEADER_SZ amiboardbuf out =
      match getUInt32 amiboardbuf (O + DSDT_HEADER_SZ) true with
      | none => none
      | some size =>
        if size > amiboardbuf.length - O then some (ERR_INVALID_PARAMETER, out)
        else some (ERR_SUCCESS, out ++ (amiboardbuf.drop O).take size) := by
  have hb := indexOf_DSDT_bound hoff
  have e1 : ((O : Int) + (DSDT_HEADER_SZ : Int)).toNat = O + DSDT_HEADER_SZ := by
    omega
  have e2 : toUINT32 ((amiboardbuf.length : Int) - (O : Int)) = amiboardbuf.length - O :=
    toUINT32_sub _ _ (by omega) (by omega)
  unfold extractDSDTfromAmiboardInfo
  simp only [hmagic, ne_eq, not_true_eq_false, if_false, hoff, e1, e2]
  rw [if_neg (by omega)]
  cases hsz : getUInt32 amiboardbuf (O + DSDT_HEADER_SZ) true with
  | none => rfl
  | some size =>
    simp only
    by_cases hgt : size > amiboardbuf.length - O
    · rw [if_pos hgt, if_pos hgt]
    · rw [if_neg hgt, if_neg hgt, toINT32_natCast _ (by omega), mid_natCast]

/-- The result of `injectDSDTintoAmiboardInfo` with the magic valid and the signature found
at `O`. -/
theorem inject_at (DSDT_HEADER_SZ : Nat) (amiboardbuf dsdtbuf out : QByteArray) (O : Nat)
    (hlen : amiboardbuf.length < 2 ^ 31) (hdlen : dsdtbuf.length < 2 ^ 31)
    (hmagic : e_magic amiboardbuf = EFI_IMAGE_DOS_SIGNATURE)
    (hoff : indexOf amiboardbuf DSDT_HEADER = (O : Int)) :
    injectDSDTintoAmiboardInfo DSDT_HEADER_SZ amiboardbuf dsdtbuf out =
      match getUInt32 amiboardbuf (O + DSDT_HEADER_SZ) true with
      | none => none
      | some oldDSDTsize =>
        if oldDSDTsize > amiboardbuf.length - O then some (ERR_INVALID_PARAMETER, out)
        else if indexOf amiboardbuf UNPATCHABLE_SECTION > 0 then some (ERR_ERROR, out)
        else if dsdtbuf.length ≤ oldDSDTsize then
          some (ERR_SUCCESS,
            out ++ amiboardbuf.take O ++ dsdtbuf
              ++ List.replicate (oldDSDTsize - dsdtbuf.length) 0
              ++ amiboardbuf.drop (O + oldDSDTsize))
        else some (ERR_SUCCESS, out) := by
  have hb := indexOf_DSDT_bound hoff
  cases hsz : getUInt32 amiboardbuf (O + DSDT_HEADER_SZ) true with
  | none =>
    have e1 : ((O : Int) + (DSDT_HEADER_SZ : Int)).toNat = O + DSDT_HEADER_SZ := by
      omega
    unfold injectDSDTintoAmiboardInfo
    simp only [hmagic, ne_eq, not_true_eq_false, if_false, hoff, e1, hsz]
    rw [if_neg (by omega)]
  | some S =>
    simp only
    by_cases hgt : S > amiboardbuf.length - O
    · have e1 : ((O : Int) + (DSDT_HEADER_SZ : Int)).toNat = O + DSDT_HEADER_SZ := by
        omega
      have e2 : toUINT32 ((amiboardbuf.length : Int) - (O : Int)) = amiboardbuf.length - O :=
        toUINT32_sub _ _ (by omega) (by omega)
      unfold injectDSDTintoAmiboardInfo
      simp only [hmagic, ne_eq, not_true_eq_false, if_false, hoff, e1, hsz, e2]
      rw [if_neg (by omega), if_pos hgt, if_pos hgt]
    · rw [if_neg hgt]
      by_cases hm : indexOf amiboardbuf UNPATCHABLE_SECTION > 0
      · have e1 : ((O : Int) + (DSDT_HEADER_SZ : Int)).toNat = O + DSDT_HEADER_SZ := by
          omega
        have e2 : toUINT32 ((amiboardbuf.length : Int) - (O : Int)) = amiboardbuf.length - O :=
          toUINT32_sub _ _ (by omega) (by omega)
        unfold injectDSDTintoAmiboardInfo
        simp only [hmagic, ne_eq, not_true_eq_false, if_false, hoff, e1, hsz, e2]
        rw [if_neg (by omega), if_neg hgt, if_pos hm, if_pos hm]
      · rw [if_neg hm]
        by_cases hn : dsdtbuf.length ≤ S
        · rw [if_pos hn]
          exact inject_no_growth DSDT_HEADER_SZ amiboardbuf dsdtbuf out O S hlen hmagic hoff hsz (by omega)
            (by omega) hn
        · rw [if_neg hn]
          exact inject_growth DSDT_HEADER_SZ amiboardbuf dsdtbuf out O S hlen hdlen hmagic
            hoff hsz (by omega) (by omega) (by omega)

/-- The return code of `injectDSDTintoAmiboardInfo` with the magic valid and the
signature found at `O`, and `out` on the failing branches. -/
theorem inject_checks_at (DSDT_HEADER_SZ : Nat) (amiboardbuf dsdtbuf out : QByteArray) (O S : Nat)
    (hlen : amiboardbuf.length < 2 ^ 31)
    (hmagic : e_magic amiboardbuf = EFI_IMAGE_DOS_SIGNATURE)
    (hoff : indexOf amiboardbuf DSDT_HEADER = (O : Int))
    (hsize : getUInt32 amiboardbuf (O + DSDT_HEADER_SZ) true = some S) :
    (S > amiboardbuf.length - O →
      injectDSDTintoAmiboardInfo DSDT_HEADER_SZ amiboardbuf dsdtbuf out = some (ERR_INVALID_PARAMETER, out)) ∧
    (¬ S > amiboardbuf.length - O → indexOf amiboardbuf UNPATCHABLE_SECTION > 0 →
      injectDSDTintoAmiboardInfo DSDT_HEADER_SZ amiboardbuf dsdtbuf out = some (ERR_ERROR, out)) ∧
    (¬ S > amiboardbuf.length - O → ¬ indexOf amiboardbuf UNPATCHABLE_SECTION > 0 →
      ∃ res, injectDSDTintoAmiboardInfo DSDT_HEADER_SZ amiboardbuf dsdtbuf out = some (ERR_SUCCESS, res)) := by
  have hb := indexOf_DSDT_bound hoff
  have e1 : ((O : Int) + (DSDT_HEADER_SZ : Int)).toNat = O + DSDT_HEADER_SZ := by
    omega
  have e2 : toUINT32 ((amiboardbuf.length : Int) - (O : Int)) = amiboardbuf.length - O :=
    toUINT32_sub _ _ (by omega) (by omega)
  refine ⟨?_, ?_, ?_⟩
  · intro hgt
    unfold injectDSDTintoAmiboardInfo
    simp only [hmagic, ne_eq, not_true_eq_false, if_false, hoff, e1, hsize, e2]
    rw [if_neg (by omega), if_pos hgt]
  · intro hgt hm
    unfold injectDSDTintoAmiboardInfo
    simp only [hmagic, ne_eq, not_true_eq_false, if_false, hoff, e1, hsize, e2]
    rw [if_neg (by omega), if_neg hgt, if_pos hm]
  · intro hgt hm
    unfold injectDSDTintoAmiboardInfo
    simp only [hmagic, ne_eq, not_true_eq_false, if_false, hoff, e1, hsize, e2]
    rw [if_neg (by omega), if_neg hgt, if_neg hm]
    split
    · exact ⟨_, rfl⟩
    · exact ⟨_, rfl⟩

/-- With a valid magic neither operation returns `ERR_INVALID_FILE`. -/
theorem extract_ne_invalid_file (DSDT_HEADER_SZ : Nat) (amiboardbuf out out' : QByteArray)
    (hmagic : e_magic amiboardbuf = EFI_IMAGE_DOS_SIGNATURE) :
    extractDSDTfromAmiboardInfo DSDT_HEADER_SZ amiboardbuf out ≠ some (ERR_INVALID_FILE, out') := by
  unfold extractDSDTfromAmiboardInfo
  simp only [hmagic, ne_eq, not_true_eq_false, if_false]
  split
  · simp
  · split
    · simp
    · split <;> simp

theorem inject_ne_invalid_file (DSDT_HEADER_SZ : Nat) (amiboardbuf dsdtbuf out out' : QByteArray)
    (hmagic : e_magic amiboardbuf = EFI_IMAGE_DOS_SIGNATURE) :
    injectDSDTintoAmiboardInfo DSDT_HEADER_SZ amiboardbuf dsdtbuf out ≠ some (ERR_INVALID_FILE, out') := by
  unfold injectDSDTintoAmiboardInfo
  simp only [hmagic, ne_eq, not_true_eq_false, if_false]
  split
  · simp
  · split
    · simp
    · split
      · simp
      · split
        · simp
        · split <;> simp

/-! ## Auxiliary lemmas: the FFS builder -/

theorem QUuid.memory_length (u : QUuid) : u.memory.length = 16 := by
  simp [QUuid.memory]

theorem byteSum_append (a b : QByteArray) : byteSum (a ++ b) = byteSum a + byteSum b := by
  simp [byteSum]

/-- The zero padding written by `ffsCreate` after the first section. -/
theorem pad_eq (fileBody : QByteArray) :
    (if fileBody.length % 4 ≠ 0 then
        fileBody ++ List.replicate (4 - fileBody.length % 4) (0 : Byte)
      else fileBody)
      = fileBody ++ List.replicate ((4 - fileBody.length % 4) % 4) (0 : Byte) := by
  by_cases h : fileBody.length % 4 = 0
  · simp [h]
  · have e : (4 - fileBody.length % 4) % 4 = 4 - fileBody.length % 4 := by omega
    rw [if_pos h, e]

/-- The section stream in closed form. -/
theorem ffsCreate_fileBody_eq (body : QByteArray) (sectionName : QString) :
    ffsCreate_fileBody body sectionName =
      [toByte (toUINT32 (4 + body.length)), toByte (toUINT32 (4 + body.length) / 2 ^ 8),
          toByte (toUINT32 (4 + body.length) / 2 ^ 16), EFI_SECTION_PE32] ++ body
        ++ List.replicate ((4 - (4 + body.length) % 4) % 4) (0 : Byte)
        ++ [toByte (toUINT32 (4 + (utf16Bytes sectionName).length)),
            toByte (toUINT32 (4 + (utf16Bytes sectionName).length) / 2 ^ 8),
            toByte (toUINT32 (4 + (utf16Bytes sectionName).length) / 2 ^ 16),
            EFI_SECTION_USER_INTERFACE]
        ++ utf16Bytes sectionName := by
  unfold ffsCreate_fileBody
  simp only [List.nil_append, pad_eq]
  simp only [EFI_COMMON_SECTION_HEADER.bytes, uint32ToUint24, sizeof_EFI_COMMON_SECTION_HEADER]
  have e : ∀ (a b c d : Byte), List.take 4 [a, b, c, d] = [a, b, c, d] := fun _ _ _ _ => rfl
  rw [e, e]
  have e2 : ([toByte (toUINT32 (((4 : Nat) : Int) + (body.length : Int))),
      toByte (toUINT32 (((4 : Nat) : Int) + (body.length : Int)) / 2 ^ 8),
      toByte (toUINT32 (((4 : Nat) : Int) + (body.length : Int)) / 2 ^ 16),
      EFI_SECTION_PE32] ++ body).length = 4 + body.length := by
    simp
    omega
  rw [e2]
  rfl

/-- The file header in closed form: `name ++ [checksum, sentinel, type,
attributes, size0, size1, size2, state]`. -/
theorem ffsCreate_fileHeader_bytes (uuid : QUuid) (size : Nat) (fileBody : QByteArray) :
    ∃ (cs s0 s1 s2 : Byte),
      cs.val = (0x100 - (byteSum uuid.memory + 2 + s0.val + s1.val + s2.val) % 256) % 256 ∧
      (ffsCreate_fileHeader uuid size fileBody).bytes =
        uuid.memory ++ [cs, 0xAA, 0x02, 0x00, s0, s1, s2, 0x07] := by
  refine ⟨calculateChecksum8 (uuid.memory ++ [0, 0, 0x02, 0x00, toByte (toUINT32 (24 + size)),
      toByte (toUINT32 (24 + size) / 2 ^ 8), toByte (toUINT32 (24 + size) / 2 ^ 16), 0x07]) 23,
    toByte (toUINT32 (24 + size)), toByte (toUINT32 (24 + size) / 2 ^ 8),
    toByte (toUINT32 (24 + size) / 2 ^ 16), ?_, ?_⟩
  · unfold calculateChecksum8
    have hl := uuid.memory_length
    have e : (uuid.memory ++ [0, 0, 0x02, 0x00, toByte (toUINT32 (24 + size)),
        toByte (toUINT32 (24 + size) / 2 ^ 8), toByte (toUINT32 (24 + size) / 2 ^ 16),
        (0x07 : Byte)]).take 23 = uuid.memory ++ [0, 0, 0x02, 0x00, toByte (toUINT32 (24 + size)),
        toByte (toUINT32 (24 + size) / 2 ^ 8), toByte (toUINT32 (24 + size) / 2 ^ 16)] := by
      rw [List.take_append_eq_append_take, List.take_of_length_le (by omega), hl]
      rfl
    rw [e, byteSum_append]
    simp only [toByte, byteSum, List.map_cons, List.map_nil, List.sum_cons, List.sum_nil]
    simp
    omega
  · rfl

/-- The buffer written by `ffsCreate`: the 24-byte header followed by the
section stream. -/
theorem ffsCreate_out (parseUuid : QString → QUuid) (staticSize : Option Nat)
    (body : QByteArray) (guid sectionName : QString) (out : QByteArray) :
    ∃ (cs s0 s1 s2 : Byte),
      cs.val = (0x100 - (byteSum (parseUuid guid).memory + 2 + s0.val + s1.val + s2.val) % 256)
        % 256 ∧
      (ffsCreate parseUuid staticSize body guid sectionName out).2.1 =
        ((parseUuid guid).memory ++ [cs, 0xAA, 0x02, 0x00, s0, s1, s2, 0x07])
          ++ ffsCreate_fileBody body sectionName := by
  obtain ⟨cs, s0, s1, s2, hcs, hb⟩ := ffsCreate_fileHeader_bytes (parseUuid guid)
    (match staticSize with
      | some s => s
      | none => toUINT32 (ffsCreate_fileBody body sectionName).length)
    (ffsCreate_fileBody body sectionName)
  refine ⟨cs, s0, s1, s2, hcs, ?_⟩
  unfold ffsCreate
  simp only [clear, List.nil_append, hb, sizeof_EFI_FFS_FILE_HEADER]
  rw [List.take_of_length_le (by simp [QUuid.memory_length])]

/-- The header bytes of the output of `ffsCreate`, one by one. -/
theorem ffsCreate_header (parseUuid : QString → QUuid) (staticSize : Option Nat)
    (body : QByteArray) (guid sectionName : QString) (out : QByteArray) :
    ∃ (cs s0 s1 s2 : Byte),
      cs.val = (0x100 - (byteSum (parseUuid guid).memory + 2 + s0.val + s1.val + s2.val) % 256)
        % 256 ∧
      ((ffsCreate parseUuid staticSize body guid sectionName out).2.1).take 24 =
        (parseUuid guid).memory ++ [cs, 0xAA, 0x02, 0x00, s0, s1, s2, 0x07] := by
  obtain ⟨cs, s0, s1, s2, hcs, hb⟩ := ffsCreate_out parseUuid staticSize body guid sectionName out
  refine ⟨cs, s0, s1, s2, hcs, ?_⟩
  rw [hb, List.take_append_eq_append_take, List.take_of_length_le (by simp [QUuid.memory_length])]
  simp [QUuid.memory_length]

theorem utf16Bytes_length (s : QString) : (utf16Bytes s).length = 2 * s.length := by
  induction s with
  | nil => rfl
  | cons c cs ih =>
    have e : utf16Bytes (c :: cs) = [toByte c.val, toByte (c.val / 2 ^ 8)] ++ utf16Bytes cs := by
      simp [utf16Bytes]
    rw [e, List.length_append, ih]
    simp
    omega

/-! ## Auxiliary lemmas: size fields and the layout of the built file -/

theorem sizeFieldAt_append (pre rest : QByteArray) (a b c : Byte) (n : Nat)
    (hn : pre.length = n) :
    sizeFieldAt (pre ++ a :: b :: c :: rest) n = some (a, b, c) := by
  subst hn
  unfold sizeFieldAt
  have h0 : (pre ++ a :: b :: c :: rest)[pre.length]? = some a := by
    rw [List.getElem?_append_right (Nat.le_refl _)]
    simp
  have h1 : (pre ++ a :: b :: c :: rest)[pre.length + 1]? = some b := by
    rw [List.getElem?_append_right (by omega)]
    simp
  have h2 : (pre ++ a :: b :: c :: rest)[pre.length + 2]? = some c := by
    rw [List.getElem?_append_right (by omega)]
    simp
  rw [h0, h1, h2]

/-- Decoding undoes encoding on sizes below `2^24`. -/
theorem uint24ToUint32_uint32ToUint24 (n : Nat) (h : n < 2 ^ 24) :
    uint24ToUint32 (uint32ToUint24 n) = n := by
  unfold uint24ToUint32 uint32ToUint24 toByte
  simp only
  omega

/-- Decoding after encoding keeps the low 24 bits. -/
theorem uint24ToUint32_uint32ToUint24_mod (n : Nat) :
    uint24ToUint32 (uint32ToUint24 n) = n % 2 ^ 24 := by
  unfold uint24ToUint32 uint32ToUint24 toByte
  simp only
  omega

/-- The buffer written by `ffsCreate`, every part spelled out. -/
theorem ffsCreate_layout (parseUuid : QString → QUuid) (staticSize : Option Nat)
    (body : QByteArray) (guid sectionName : QString) (out : QByteArray) :
    ∃ (fileHeader : QByteArray), fileHeader.length = 24 ∧
      fileHeader.take 16 = (parseUuid guid).memory ∧
      (ffsCreate parseUuid staticSize body guid sectionName out).2.1 =
        fileHeader
          ++ EFI_COMMON_SECTION_HEADER.bytes
              { Size := uint32ToUint24 (toUINT32 (4 + body.length)), Type_ := EFI_SECTION_PE32 }
          ++ body
          ++ List.replicate ((4 - (4 + body.length) % 4) % 4) (0 : Byte)
          ++ EFI_COMMON_SECTION_HEADER.bytes
              { Size := uint32ToUint24 (toUINT32 (4 + (utf16Bytes sectionName).length)),
                Type_ := EFI_SECTION_USER_INTERFACE }
          ++ utf16Bytes sectionName := by
  obtain ⟨cs, s0, s1, s2, _, hb⟩ := ffsCreate_out parseUuid staticSize body guid sectionName out
  refine ⟨(parseUuid guid).memory ++ [cs, 0xAA, 0x02, 0x00, s0, s1, s2, 0x07], ?_, ?_, ?_⟩
  · simp [QUuid.memory_length]
  · rw [List.take_append_eq_append_take, List.take_of_length_le (by simp [QUuid.memory_length])]
    simp [QUuid.memory_length]
  · rw [hb, ffsCreate_fileBody_eq]
    simp only [EFI_COMMON_SECTION_HEADER.bytes, uint32ToUint24, List.append_assoc]

/-- The return code of `ffsCreate` is always `ERR_SUCCESS` and the static is set. -/
theorem ffsCreate_code (parseUuid : QString → QUuid) (staticSize : Option Nat)
    (body : QByteArray) (guid sectionName : QString) (out : QByteArray) :
    (ffsCreate parseUuid staticSize body guid sectionName out).1 = ERR_SUCCESS ∧
    ∃ s, (ffsCreate parseUuid staticSize body guid sectionName out).2.2 = some s := by
  unfold ffsCreate
  exact ⟨rfl, _, rfl⟩

/-- The size field of a section header placed behind `pre` decodes to the size it
was built from. -/
theorem sizeFieldAt_section (pre rest : QByteArray) (n off : Nat) (t : Byte)
    (hoff : pre.length = off) (h : n < 2 ^ 24) :
    (sizeFieldAt (pre ++ EFI_COMMON_SECTION_HEADER.bytes
        { Size := uint32ToUint24 n, Type_ := t } ++ rest) off).map uint24ToUint32 = some n := by
  have e : pre ++ EFI_COMMON_SECTION_HEADER.bytes { Size := uint32ToUint24 n, Type_ := t } ++ rest
      = pre ++ (uint32ToUint24 n).1 :: (uint32ToUint24 n).2.1 :: (uint32ToUint24 n).2.2
          :: (t :: rest) := by
    simp [EFI_COMMON_SECTION_HEADER.bytes]
  rw [e, sizeFieldAt_append _ _ _ _ _ off hoff]
  simp only [Option.map_some', Prod.mk.eta]
  rw [uint24ToUint32_uint32ToUint24 n h]

theorem toUINT32_four_add (n : Nat) (h : n < 2 ^ 24) :
    toUINT32 ((4 : Int) + (n : Int)) = 4 + n := by
  unfold toUINT32
  omega

theorem utf16Bytes_cons (c : Fin 65536) (cs : QString) :
    utf16Bytes (c :: cs) = toByte c.val :: toByte (c.val / 2 ^ 8) :: utf16Bytes cs := by
  simp [utf16Bytes]

/-- The payload of the name section is UTF-16LE: code unit `i` of the text is
the byte pair at `2*i`, low byte first. -/
theorem utf16Bytes_getElem (s : QString) (i : Nat) (c : Fin 65536) (h : s[i]? = some c) :
    (utf16Bytes s)[2 * i]? = some (toByte c.val) ∧
    (utf16Bytes s)[2 * i + 1]? = some (toByte (c.val / 2 ^ 8)) := by
  induction s generalizing i with
  | nil => simp at h
  | cons d ds ih =>
    rw [utf16Bytes_cons]
    cases i with
    | zero =>
      simp only [List.getElem?_cons_zero, Option.some.injEq] at h
      subst h
      simp
    | succ j =>
      simp only [List.getElem?_cons_succ] at h
      obtain ⟨h1, h2⟩ := ih j h
      have e1 : 2 * (j + 1) = (2 * j + 1) + 1 := by omega
      have e2 : 2 * (j + 1) + 1 = ((2 * j + 1) + 1) + 1 := by omega
      rw [e2, e1]
      simp only [List.getElem?_cons_succ]
      exact ⟨h1, h2⟩

/-! ## Auxiliary lemmas: the kext pipeline -/

theorem fileOpen_ok (env : Env) (path : QString) (content : QByteArray)
    (hex : env.fileExists path = true) (hrd : env.readAll path = some content) :
    fileOpen env path [] = (ERR_SUCCESS, content) := by
  unfold fileOpen
  simp [hex, hrd, clear]

theorem plistReadExecName_ok (env : Env) (plist : QByteArray) (execName : QString)
    (hexec : env.plistValue plist (qs "CFBundleExecutable") = some execName)
    (hne : execName ≠ []) :
    plistReadExecName env plist [] = (ERR_SUCCESS, execName) := by
  unfold plistReadExecName
  simp [hexec, hne]

theorem toUpper_append (a b : QString) : toUpper (a ++ b) = toUpper a ++ toUpper b := by
  simp [toUpper]

/-- For an index in `[0, 15]` the substituted text is one digit, and upper-casing
it gives the upper-case hexadecimal digit of the index. -/
theorem toUpper_argHex (i : Int) (h0 : 0 ≤ i) (h15 : i ≤ 15) :
    toUpper (argHex i) = [upperHexDigitChar i.toNat] := by
  interval_cases i <;> decide

/-- An index above 15 is rejected before anything else is done. -/
theorem convertKext_index_gt (env : Env) (kextGUID : GuidTemplate) (staticSize : Option Nat)
    (input : QString) (kextIndex : Int) (basename : QString) (out : QByteArray)
    (h : kextIndex > 15) :
    convertKext env kextGUID staticSize input kextIndex basename out
      = (ERR_ERROR, out, staticSize) := by
  unfold convertKext
  simp only
  rw [if_pos h]

/-- The call of the builder made by `convertKext` on a readable bundle. -/
theorem convertKext_builds (env : Env) (kextGUID : GuidTemplate) (staticSize : Option Nat)
    (input : QString) (kextIndex : Int) (basename : QString) (out : QByteArray)
    (plistbuf binarybuf : QByteArray) (execName : QString)
    (hi : kextIndex ≤ 15)
    (hdir : env.dirExists (macOSDirOf env input) = true)
    (hplist : env.fileExists (plistPathOf env input) = true)
    (hplistRead : env.readAll (plistPathOf env input) = some plistbuf)
    (hexec : env.plistValue plistbuf (qs "CFBundleExecutable") = some execName)
    (hexecNe : execName ≠ [])
    (hbin : env.fileExists (env.filePath (macOSDirOf env input) execName) = true)
    (hbinRead : env.readAll (env.filePath (macOSDirOf env input) execName) = some binarybuf) :
    convertKext env kextGUID staticSize input kextIndex basename out =
      (ERR_SUCCESS,
        (ffsCreate env.parseUuid staticSize (plistbuf ++ [0] ++ binarybuf)
          (toUpper (kextGUID.arg (argHex kextIndex)))
          (if (plistReadBundleVersion env plistbuf []).1 ≠ ERR_SUCCESS then basename
            else env.printable basename ++ qs ".Rev-"
              ++ env.printable (plistReadBundleVersion env plistbuf []).2)
          out).2) := by
  unfold macOSDirOf at hdir hbin hbinRead
  unfold plistPathOf at hplist hplistRead
  have hfo := fileOpen_ok env _ plistbuf hplist hplistRead
  have hfb := fileOpen_ok env _ binarybuf hbin hbinRead
  have hpe := plistReadExecName_ok env plistbuf execName hexec hexecNe
  have hc : ∀ (b : QByteArray) (g n : QString) (o : QByteArray),
      (ffsCreate env.parseUuid staticSize b g n o).1 = ERR_SUCCESS :=
    fun b g n o => (ffsCreate_code env.parseUuid staticSize b g n o).1
  unfold convertKext
  simp only [gt_iff_lt, not_lt.mpr hi, if_false, hdir, hplist, Bool.not_true, Bool.false_eq_true,
    hfo, hpe, hbin, hfb, ne_eq, not_true_eq_false, List.nil_append]
  simp [hc]

/-- The return of `convertKext` when the named executable is missing. -/
theorem convertKext_no_binary (env : Env) (kextGUID : GuidTemplate) (staticSize : Option Nat)
    (input : QString) (kextIndex : Int) (basename : QString) (out : QByteArray)
    (plistbuf : QByteArray) (execName : QString)
    (hplistRead : env.fileExists (plistPathOf env input) = true →
      env.readAll (plistPathOf env input) = some plistbuf)
    (hexec : env.plistValue plistbuf (qs "CFBundleExecutable") = some execName)
    (hbin : env.fileExists (env.filePath (macOSDirOf env input) execName) = false) :
    convertKext env kextGUID staticSize input kextIndex basename out
      = (ERR_ERROR, out, staticSize) := by
  unfold macOSDirOf at hbin
  unfold plistPathOf at hplistRead
  unfold convertKext
  simp only
  by_cases hi : kextIndex > 15
  · rw [if_pos hi]
  · rw [if_neg hi]
    by_cases hdir : env.dirExists (env.filePath (env.filePath input (qs "Contents")) (qs "MacOS"))
        = true
    · by_cases hpl : env.fileExists
          (env.filePath (env.filePath input (qs "Contents")) (qs "Info.plist")) = true
      · have hfo := fileOpen_ok env _ plistbuf hpl (hplistRead hpl)
        by_cases hne : execName = []
        · subst hne
          have hpe : plistReadExecName env plistbuf [] = (ERR_ERROR, []) := by
            unfold plistReadExecName
            simp [hexec]
          simp [hdir, hpl, hfo, hpe]
        · have hpe := plistReadExecName_ok env plistbuf execName hexec hne
          simp [hdir, hpl, hfo, hpe, hbin]
      · simp [hdir, hpl]
    · simp [hdir]

theorem plistReadBundleVersion_some (env : Env) (plist : QByteArray) (v : QString)
    (hv : env.plistValue plist (qs "CFBundleShortVersionString") = some v) (hne : v ≠ []) :
    plistReadBundleVersion env plist [] = (ERR_SUCCESS, v) := by
  unfold plistReadBundleVersion
  simp [hv, hne]

theorem plistReadBundleVersion_empty (env : Env) (plist : QByteArray)
    (hv : env.plistValue plist (qs "CFBundleShortVersionString") = some []) :
    (plistReadBundleVersion env plist []).1 = ERR_ERROR := by
  unfold plistReadBundleVersion
  simp [hv]

theorem plistReadBundleVersion_none (env : Env) (plist : QByteArray)
    (hv : env.plistValue plist (qs "CFBundleShortVersionString") = none) :
    (plistReadBundleVersion env plist []).1 = ERR_ERROR := by
  unfold plistReadBundleVersion
  simp [hv]

/-! ## Auxiliary lemmas: extract after inject -/

/-- Whether a sequence occurs at index `k` depends only on the first
`k + needle.length` bytes. -/
theorem occursAt_congr_take (a b needle : QByteArray) (n k : Nat)
    (h : a.take n = b.take n) (hk : k + needle.length ≤ n) :
    occursAt a needle k ↔ occursAt b needle k := by
  unfold occursAt
  have e : ∀ x : QByteArray, (x.drop k).take needle.length
      = ((x.take n).take (k + needle.length)).drop k := by
    intro x
    rw [List.take_drop, List.take_take, Nat.min_eq_left hk]
  rw [e a, e b, h]

/-- The value read by `getUInt32` depends only on the four bytes read. -/
theorem getUInt32_congr (a b : QByteArray) (s s' : Nat) (fromBE : Bool)
    (h : ∀ k, k < 4 → a[s + k]? = b[s' + k]?) :
    getUInt32 a s fromBE = getUInt32 b s' fromBE := by
  unfold getUInt32
  rw [h 0 (by omega), h 1 (by omega), h 2 (by omega), h 3 (by omega)]

/-- A module that begins `4D 5A` holds the signature at index 2 or later. -/
theorem signature_offset_ge_two (buf : QByteArray) (O : Nat) (hmagic : hasDosMagic buf)
    (hocc : occursAt buf DSDT_HEADER O) : 2 ≤ O := by
  obtain ⟨h0, h1⟩ := hmagic
  unfold occursAt at hocc
  rcases buf with _ | ⟨b0, _ | ⟨b1, rest⟩⟩
  · simp at h0
  · simp at h1
  · simp only [List.getElem?_cons_zero, List.getElem?_cons_succ, Option.some.injEq] at h0 h1
    subst h0 h1
    rcases O with _ | _ | O
    · simp [DSDT_HEADER] at hocc
    · simp [DSDT_HEADER] at hocc
    · omega

/-- The patched module of the no-growth path: the facts that make
`extractDSDTfromAmiboardInfo` find the new table in it.  `L` is the length that
`getUInt32` reads from the new table. -/
theorem patched_facts (DSDT_HEADER_SZ : Nat) (buf t : QByteArray) (O S L : Nat)
    (hmagic : hasDosMagic buf)
    (hoff : indexOf buf DSDT_HEADER = (O : Int))
    (hfit : S ≤ buf.length - O)
    (hsig : t.take 4 = DSDT_HEADER)
    (hread : getUInt32 t DSDT_HEADER_SZ true = some L)
    (hnew : t.length ≤ S) :
    (buf.take O ++ t ++ List.replicate (S - t.length) 0 ++ buf.drop (O + S)).length
      = buf.length ∧
    hasDosMagic (buf.take O ++ t ++ List.replicate (S - t.length) 0 ++ buf.drop (O + S)) ∧
    indexOf (buf.take O ++ t ++ List.replicate (S - t.length) 0 ++ buf.drop (O + S)) DSDT_HEADER
      = (O : Int) ∧
    getUInt32 (buf.take O ++ t ++ List.replicate (S - t.length) 0 ++ buf.drop (O + S))
      (O + DSDT_HEADER_SZ) true = some L ∧
    (buf.take O ++ t ++ List.replicate (S - t.length) 0 ++ buf.drop (O + S)).drop O
      = t ++ (List.replicate (S - t.length) 0 ++ buf.drop (O + S)) := by
  have hb := indexOf_DSDT_bound hoff
  obtain ⟨hocc, hleast⟩ := (indexOf_eq_natCast_iff buf DSDT_HEADER DSDT_HEADER_ne_nil O).mp hoff
  have hO2 := signature_offset_ge_two buf O hmagic hocc
  have htb := getUInt32_some_bound hread
  have hOlen : (buf.take O).length = O := by
    rw [List.length_take]; omega
  have ht4 : 4 ≤ t.length := by
    have := congrArg List.length hsig
    simp only [List.length_take, DSDT_HEADER, List.length_cons, List.length_nil] at this
    omega
  -- the first `O + 4` bytes are those of the module
  have hpre : (buf.take O ++ t ++ List.replicate (S - t.length) 0 ++ buf.drop (O + S)).take (O + 4)
      = buf.take (O + 4) := by
    rw [List.append_assoc, List.append_assoc, List.take_append_eq_append_take, hOlen,
      List.take_of_length_le (by omega)]
    have e1 : O + 4 - O = 4 := by omega
    rw [e1, List.take_append_of_le_length (by omega), hsig, List.take_add]
    unfold occursAt at hocc
    have e2 : DSDT_HEADER.length = 4 := by decide
    rw [e2] at hocc
    rw [hocc]
  refine ⟨?_, ?_, ?_, ?_, ?_⟩
  · simp only [List.length_append, hOlen, List.length_replicate, List.length_drop]
    omega
  · unfold hasDosMagic at hmagic ⊢
    rw [List.append_assoc, List.append_assoc,
      List.getElem?_append_left (by omega), List.getElem?_append_left (by omega),
      List.getElem?_take_of_lt (by omega), List.getElem?_take_of_lt (by omega)]
    exact hmagic
  · rw [indexOf_eq_natCast_iff _ DSDT_HEADER DSDT_HEADER_ne_nil O]
    have e2 : DSDT_HEADER.length = 4 := by decide
    constructor
    · exact (occursAt_congr_take _ buf DSDT_HEADER (O + 4) O hpre (by omega)).mpr hocc
    · intro j hj hc
      exact hleast j hj
        ((occursAt_congr_take _ buf DSDT_HEADER (O + 4) j hpre (by omega)).mp hc)
  · rw [← hread]
    apply getUInt32_congr
    intro k hk
    rw [List.append_assoc, List.append_assoc, List.getElem?_append_right (by omega), hOlen,
      List.getElem?_append_left (by omega)]
    congr 1
    omega
  · rw [List.append_assoc, List.append_assoc, List.drop_left' hOlen]

/-- Extract after a no-growth Replace: the injection succeeds, the scan of the
patched module finds the offset `O` again, and Extract returns the first `L`
bytes from `O`, where `L` is the length that `getUInt32` reads from the new
table; these are the first `L` bytes of the table when `L` is at most its
length. -/
theorem extract_after_inject (DSDT_HEADER_SZ : Nat) (amiboardbuf t : QByteArray) (O S L : Nat)
    (hlen : amiboardbuf.length < 2 ^ 31)
    (hmagic : hasDosMagic amiboardbuf)
    (hoff : indexOf amiboardbuf DSDT_HEADER = (O : Int))
    (hsize : getUInt32 amiboardbuf (O + DSDT_HEADER_SZ) true = some S)
    (hfit : S ≤ amiboardbuf.length - O)
    (hmark : indexOf amiboardbuf UNPATCHABLE_SECTION ≤ 0)
    (hsig : t.take 4 = DSDT_HEADER)
    (hread : getUInt32 t DSDT_HEADER_SZ true = some L)
    (hnew : t.length ≤ S)
    (hL : L ≤ t.length) :
    ∃ patched : QByteArray,
      injectDSDTintoAmiboardInfo DSDT_HEADER_SZ amiboardbuf t [] = some (ERR_SUCCESS, patched) ∧
      indexOf patched DSDT_HEADER = (O : Int) ∧
      extractDSDTfromAmiboardInfo DSDT_HEADER_SZ patched [] = some (ERR_SUCCESS, t.take L) := by
  have hm := (e_magic_eq_iff amiboardbuf).mpr hmagic
  have hb := indexOf_DSDT_bound hoff
  obtain ⟨pl, pm, po, pg, pt⟩ :=
    patched_facts DSDT_HEADER_SZ amiboardbuf t O S L hmagic hoff hfit hsig hread hnew
  refine ⟨amiboardbuf.take O ++ t ++ List.replicate (S - t.length) 0
    ++ amiboardbuf.drop (O + S), ?_, po, ?_⟩
  · rw [inject_no_growth DSDT_HEADER_SZ amiboardbuf t [] O S hlen hm hoff hsize hfit hmark hnew,
      List.nil_append]
  · rw [extract_at DSDT_HEADER_SZ _ [] O (by omega) ((e_magic_eq_iff _).mpr pm) po, pg]
    simp only
    rw [if_neg (by omega), List.nil_append, pt, List.take_append_of_le_length hL]

/-- Injecting the table extracted from a module that passes the checks of
`injectDSDTintoAmiboardInfo` returns the module unchanged. -/
theorem inject_after_extract (DSDT_HEADER_SZ : Nat) (amiboardbuf : QByteArray) (O S : Nat)
    (hlen : amiboardbuf.length < 2 ^ 31)
    (hmagic : hasDosMagic amiboardbuf)
    (hoff : indexOf amiboardbuf DSDT_HEADER = (O : Int))
    (hsize : getUInt32 amiboardbuf (O + DSDT_HEADER_SZ) true = some S)
    (hfit : S ≤ amiboardbuf.length - O)
    (hmark : indexOf amiboardbuf UNPATCHABLE_SECTION ≤ 0) :
    ∃ extracted : QByteArray,
      extractDSDTfromAmiboardInfo DSDT_HEADER_SZ amiboardbuf [] = some (ERR_SUCCESS, extracted) ∧
      injectDSDTintoAmiboardInfo DSDT_HEADER_SZ amiboardbuf extracted []
        = some (ERR_SUCCESS, amiboardbuf) := by
  have hm := (e_magic_eq_iff amiboardbuf).mpr hmagic
  have hb := indexOf_DSDT_bound hoff
  refine ⟨(amiboardbuf.drop O).take S, ?_, ?_⟩
  · rw [extract_at DSDT_HEADER_SZ amiboardbuf [] O hlen hm hoff, hsize]
    simp only
    rw [if_neg (by omega), List.nil_append]
  · have hl : ((amiboardbuf.drop O).take S).length = S := by
      rw [List.length_take, List.length_drop]
      omega
    rw [inject_no_growth DSDT_HEADER_SZ amiboardbuf _ [] O S hlen hm hoff hsize hfit hmark
      (by omega), hl]
    simp only [List.nil_append, Nat.sub_self, List.replicate_zero, List.append_nil]
    rw [← List.take_add, List.take_append_drop]

/-- A buffer without the first byte of a sequence does not hold the sequence. -/
theorem indexOf_eq_neg_one_of_not_mem (buf : QByteArray) (n : Byte) (ns : QByteArray)
    (h : n ∉ buf) : indexOf buf (n :: ns) = -1 := by
  rw [indexOf_eq_neg_one_iff buf (n :: ns) (by simp)]
  intro k hk
  unfold occursAt at hk
  apply h
  have hmem : n ∈ (buf.drop k).take (n :: ns).length := by
    rw [hk]
    exact List.mem_cons_self n ns
  exact List.mem_of_mem_drop (List.mem_of_mem_take hmem)

/-- A read that lies inside the first part of a buffer does not see the rest. -/
theorem getUInt32_append_left (pre rest : QByteArray) (start : Nat) (fromBE : Bool)
    (h : start + 3 < pre.length) :
    getUInt32 (pre ++ rest) start fromBE = getUInt32 pre start fromBE := by
  apply getUInt32_congr
  intro k hk
  rw [List.getElem?_append_left (by omega)]

/-- The magic of a buffer is that of its first part. -/
theorem hasDosMagic_append (pre rest : QByteArray) (h : hasDosMagic pre) :
    hasDosMagic (pre ++ rest) := by
  unfold hasDosMagic at h ⊢
  obtain ⟨h0, h1⟩ := h
  have l0 : 0 < pre.length := (List.getElem?_eq_some_iff.mp h0).1
  have l1 : 1 < pre.length := (List.getElem?_eq_some_iff.mp h1).1
  rw [List.getElem?_append_left l0, List.getElem?_append_left l1]
  exact ⟨h0, h1⟩

/-! ## Auxiliary lemmas: the effect on `out` -/

/-- Every return of `extractDSDTfromAmiboardInfo` either leaves `out` as it was,
with a failure code, or appends to it a slice that does not depend on `out`. -/
theorem extract_frame (DSDT_HEADER_SZ : Nat) (amiboardbuf out : QByteArray)
    (code : ErrCode) (out' : QByteArray)
    (h : extractDSDTfromAmiboardInfo DSDT_HEADER_SZ amiboardbuf out = some (code, out')) :
    (code ≠ ERR_SUCCESS ∧ out' = out) ∨
    (code = ERR_SUCCESS ∧ ∃ r,
      extractDSDTfromAmiboardInfo DSDT_HEADER_SZ amiboardbuf [] = some (ERR_SUCCESS, r) ∧
      out' = out ++ r) := by
  unfold extractDSDTfromAmiboardInfo at h ⊢
  simp only at h ⊢
  split at h
  · simp only [Option.some.injEq, Prod.mk.injEq] at h
    left
    exact ⟨by rw [← h.1]; decide, h.2.symm⟩
  · rename_i hm
    rw [if_neg hm]
    split at h
    · simp only [Option.some.injEq, Prod.mk.injEq] at h
      left
      exact ⟨by rw [← h.1]; decide, h.2.symm⟩
    · rename_i ho
      rw [if_neg ho]
      split at h
      · exact absurd h (by simp)
      · split at h
        · simp only [Option.some.injEq, Prod.mk.injEq] at h
          left
          exact ⟨by rw [← h.1]; decide, h.2.symm⟩
        · rename_i hgt
          rw [if_neg hgt]
          simp only [Option.some.injEq, Prod.mk.injEq] at h
          right
          exact ⟨h.1.symm, _, rfl, by rw [List.nil_append]; exact h.2.symm⟩

/-- Every return of `injectDSDTintoAmiboardInfo` with a failure code leaves `out`
as it was. -/
theorem inject_frame_failure (DSDT_HEADER_SZ : Nat) (amiboardbuf dsdtbuf out : QByteArray)
    (code : ErrCode) (out' : QByteArray)
    (h : injectDSDTintoAmiboardInfo DSDT_HEADER_SZ amiboardbuf dsdtbuf out = some (code, out'))
    (hne : code ≠ ERR_SUCCESS) : out' = out := by
  unfold injectDSDTintoAmiboardInfo at h
  simp only at h
  split at h
  · simp only [Option.some.injEq, Prod.mk.injEq] at h
    exact h.2.symm
  · split at h
    · simp only [Option.some.injEq, Prod.mk.injEq] at h
      exact h.2.symm
    · split at h
      · exact absurd h (by simp)
      · split at h
        · simp only [Option.some.injEq, Prod.mk.injEq] at h
          exact h.2.symm
        · split at h
          · simp only [Option.some.injEq, Prod.mk.injEq] at h
            exact h.2.symm
          · split at h
            · simp only [Option.some.injEq, Prod.mk.injEq] at h
              exact absurd h.1.symm hne
            · simp only [Option.some.injEq, Prod.mk.injEq] at h
              exact absurd h.1.symm hne

/-- The builder clears `out`: its output does not depend on the entry contents. -/
theorem ffsCreate_clears_out (parseUuid : QString → QUuid) (staticSize : Option Nat)
    (body : QByteArray) (guid sectionName : QString) (out : QByteArray) :
    ffsCreate parseUuid staticSize body guid sectionName out
      = ffsCreate parseUuid staticSize body guid sectionName [] := by
  unfold ffsCreate
  simp only [clear]

/-! ## The claims -/

/-- C1: for a module that passes the magic, signature, declared-size and marker
checks, with the DSDT at offset `O` and declared size `S`, and a replacement
table no longer than `S`, `injectDSDTintoAmiboardInfo` succeeds and (from an
empty `out`) the output has the length of the input, equals the input outside
`[O, O+S)`, equals the replacement on `[O, O+S')` and is zero on `[O+S', O+S)`. -/
theorem C1_inject_no_growth_layout (DSDT_HEADER_SZ : Nat) (amiboardbuf dsdtbuf : QByteArray) (O S : Nat)
    (hlen : amiboardbuf.length < 2 ^ 31)
    (hmagic : e_magic amiboardbuf = EFI_IMAGE_DOS_SIGNATURE)
    (hoff : indexOf amiboardbuf DSDT_HEADER = (O : Int))
    (hsize : getUInt32 amiboardbuf (O + DSDT_HEADER_SZ) true = some S)
    (hfit : S ≤ amiboardbuf.length - O)
    (hmark : indexOf amiboardbuf UNPATCHABLE_SECTION ≤ 0)
    (hnew : dsdtbuf.length ≤ S) :
    ∃ res : QByteArray,
      injectDSDTintoAmiboardInfo DSDT_HEADER_SZ amiboardbuf dsdtbuf [] = some (ERR_SUCCESS, res) ∧
      res.length = amiboardbuf.length ∧
      (∀ i, i < O ∨ O + S ≤ i → res[i]? = amiboardbuf[i]?) ∧
      (∀ i, i < dsdtbuf.length → res[O + i]? = dsdtbuf[i]?) ∧
      (∀ i, O + dsdtbuf.length ≤ i → i < O + S → res[i]? = some 0) := by
  have hb := getUInt32_some_bound hsize
  refine ⟨_, inject_no_growth DSDT_HEADER_SZ amiboardbuf dsdtbuf [] O S hlen hmagic hoff hsize hfit hmark hnew,
    ?_, ?_, ?_, ?_⟩
  · simp only [List.nil_append, List.length_append, List.length_take, List.length_replicate,
      List.length_drop]
    omega
  · intro i hi
    have hO : (amiboardbuf.take O).length = O := by
      rw [List.length_take]; omega
    rcases hi with hi | hi
    · rw [List.nil_append, List.append_assoc, List.append_assoc,
        List.getElem?_append_left (by omega), List.getElem?_take_of_lt hi]
    · have hl : (([] : QByteArray) ++ amiboardbuf.take O ++ dsdtbuf
          ++ List.replicate (S - dsdtbuf.length) 0).length = O + S := by
        simp only [List.nil_append, List.length_append, hO, List.length_replicate]
        omega
      rw [List.getElem?_append_right (by omega), hl, List.getElem?_drop]
      congr 1
      omega
  · intro i hi
    have hO : (([] : QByteArray) ++ amiboardbuf.take O).length = O := by
      rw [List.nil_append, List.length_take]; omega
    rw [List.append_assoc, List.append_assoc, List.getElem?_append_right (by omega), hO,
      List.getElem?_append_left (by omega)]
    congr 1
    omega
  · intro i h1 h2
    have hO : (([] : QByteArray) ++ amiboardbuf.take O ++ dsdtbuf).length
        = O + dsdtbuf.length := by
      rw [List.nil_append, List.length_append, List.length_take]; omega
    rw [List.append_assoc, List.getElem?_append_right (by omega), hO,
      List.getElem?_append_left (by simp; omega), List.getElem?_replicate]
    rw [if_pos (by omega)]

/-- Witness of C1 on `sampleModule` (`O = 4`, `S = 12`) and a 3-byte table. -/
theorem C1_inject_no_growth_layout_witness :
    ∃ res : QByteArray,
      injectDSDTintoAmiboardInfo 4 sampleModule sampleTable [] = some (ERR_SUCCESS, res) ∧
      res.length = sampleModule.length ∧
      (∀ i, i < 4 ∨ 4 + 12 ≤ i → res[i]? = sampleModule[i]?) ∧
      (∀ i, i < sampleTable.length → res[4 + i]? = sampleTable[i]?) ∧
      (∀ i, 4 + sampleTable.length ≤ i → i < 4 + 12 → res[i]? = some 0) :=
  C1_inject_no_growth_layout 4 sampleModule sampleTable 4 12 (by decide) (by decide) (by decide)
    (by decide) (by decide) (by decide) (by decide)

/-- C2 (what the code does): for a module that passes the magic, signature,
declared-size and marker checks and a replacement table strictly longer than the
declared size `S`, `injectDSDTintoAmiboardInfo` returns `ERR_SUCCESS` and leaves
`out` as it was: no failure code, no patched module. -/
theorem C2_inject_growth_returns_success (DSDT_HEADER_SZ : Nat) (amiboardbuf dsdtbuf out : QByteArray) (O S : Nat)
    (hlen : amiboardbuf.length < 2 ^ 31)
    (hdlen : dsdtbuf.length < 2 ^ 31)
    (hmagic : e_magic amiboardbuf = EFI_IMAGE_DOS_SIGNATURE)
    (hoff : indexOf amiboardbuf DSDT_HEADER = (O : Int))
    (hsize : getUInt32 amiboardbuf (O + DSDT_HEADER_SZ) true = some S)
    (hfit : S ≤ amiboardbuf.length - O)
    (hmark : indexOf amiboardbuf UNPATCHABLE_SECTION ≤ 0)
    (hnew : S < dsdtbuf.length) :
    injectDSDTintoAmiboardInfo DSDT_HEADER_SZ amiboardbuf dsdtbuf out = some (ERR_SUCCESS, out) :=
  inject_growth DSDT_HEADER_SZ amiboardbuf dsdtbuf out O S hlen hdlen hmagic hoff hsize hfit hmark hnew

/-- Witness of C2 on `sampleModule` (`O = 4`, `S = 12`) and a 13-byte table. -/
theorem C2_inject_growth_returns_success_witness :
    injectDSDTintoAmiboardInfo 4 sampleModule sampleLargeTable [] = some (ERR_SUCCESS, []) :=
  C2_inject_growth_returns_success 4 sampleModule sampleLargeTable [] 4 12 (by decide) (by decide)
    (by decide) (by decide) (by decide) (by decide) (by decide) (by decide)

/-- C3: whenever `extractDSDTfromAmiboardInfo` succeeds, with `offset` the value
of the signature scan and `declaredSize` the length read from the table, the
bytes appended to `out` are exactly the `declaredSize` bytes
`buf[offset .. offset + declaredSize)`; the slice is never cut short by the end
of the buffer. -/
theorem C3_extract_exact_slice (DSDT_HEADER_SZ : Nat) (amiboardbuf out out' : QByteArray)
    (hlen : amiboardbuf.length < 2 ^ 31)
    (h : extractDSDTfromAmiboardInfo DSDT_HEADER_SZ amiboardbuf out = some (ERR_SUCCESS, out')) :
    ∃ offset declaredSize : Nat,
      indexOf amiboardbuf DSDT_HEADER = (offset : Int) ∧
      getUInt32 amiboardbuf (offset + DSDT_HEADER_SZ) true = some declaredSize ∧
      offset + declaredSize ≤ amiboardbuf.length ∧
      out' = out ++ (amiboardbuf.drop offset).take declaredSize ∧
      ((amiboardbuf.drop offset).take declaredSize).length = declaredSize ∧
      ∀ i, i < declaredSize →
        ((amiboardbuf.drop offset).take declaredSize)[i]? = amiboardbuf[offset + i]? := by
  by_cases hmagic : e_magic amiboardbuf = EFI_IMAGE_DOS_SIGNATURE
  · rcases indexOf_cases amiboardbuf DSDT_HEADER DSDT_HEADER_ne_nil with hoff | ⟨O, hoff⟩
    · rw [extract_not_found DSDT_HEADER_SZ amiboardbuf out hmagic hoff] at h
      simp at h
    · have hb := indexOf_DSDT_bound hoff
      rw [extract_at DSDT_HEADER_SZ amiboardbuf out O hlen hmagic hoff] at h
      cases hsz : getUInt32 amiboardbuf (O + DSDT_HEADER_SZ) true with
      | none =>
        rw [hsz] at h
        simp at h
      | some S =>
        rw [hsz] at h
        simp only at h
        by_cases hgt : S > amiboardbuf.length - O
        · rw [if_pos hgt] at h
          simp at h
        · rw [if_neg hgt] at h
          simp only [Option.some.injEq, Prod.mk.injEq, true_and] at h
          refine ⟨O, S, hoff, hsz, by omega, h.symm, ?_, ?_⟩
          · rw [List.length_take, List.length_drop]
            omega
          · intro i hi
            rw [List.getElem?_take_of_lt hi, List.getElem?_drop]
  · rw [extract_bad_magic DSDT_HEADER_SZ amiboardbuf out hmagic] at h
    simp at h

/-- Witness of C3 on `sampleModule`: the 12 bytes from offset 4 are appended. -/
theorem C3_extract_exact_slice_witness :
    ∃ offset declaredSize : Nat,
      indexOf sampleModule DSDT_HEADER = (offset : Int) ∧
      getUInt32 sampleModule (offset + 4) true = some declaredSize ∧
      offset + declaredSize ≤ sampleModule.length ∧
      [9] ++ (sampleModule.drop 4).take 12 = [9] ++ (sampleModule.drop offset).take declaredSize ∧
      ((sampleModule.drop offset).take declaredSize).length = declaredSize ∧
      ∀ i, i < declaredSize →
        ((sampleModule.drop offset).take declaredSize)[i]? = sampleModule[offset + i]? :=
  C3_extract_exact_slice 4 sampleModule [9] ([9] ++ (sampleModule.drop 4).take 12)
    (by decide) (by decide)

set_option maxRecDepth 100000

/-- C4 (counterexample): the length bytes `00 00 02 00` are read by
`getUInt32(.., TRUE)` as `0x20000 = 131072`, not as the big-endian value
`0x200 = 512`; on the example module (magic at 0, signature at `0x100`, these
length bytes, 768 bytes in all) Extract fails with `ERR_INVALID_PARAMETER`
instead of returning 512 bytes, with the length field 4 or 8 bytes past the
start of the signature. -/
theorem C4_counterexample :
    getUInt32 [0x00, 0x00, 0x02, 0x00] 0 true = some 131072 ∧
    getUInt32 [0x00, 0x00, 0x02, 0x00] 0 true ≠ some (0 * 2 ^ 24 + 0 * 2 ^ 16 + 2 * 2 ^ 8 + 0) ∧
    hasDosMagic exampleModuleBE ∧
    indexOf exampleModuleBE DSDT_HEADER = 0x100 ∧
    exampleModuleBE.length = 0x100 + 512 ∧
    extractDSDTfromAmiboardInfo 4 exampleModuleBE [] = some (ERR_INVALID_PARAMETER, []) ∧
    extractDSDTfromAmiboardInfo 8 exampleModuleBE [] = some (ERR_INVALID_PARAMETER, []) := by
  refine ⟨by decide, by decide, by decide, by decide, by decide, by decide, by decide⟩

/-- C4 (amended): `getUInt32(buf, start, TRUE)` is the unsigned little-endian
value `b0 + b1*2^8 + b2*2^16 + b3*2^24` of the four bytes at `start` whenever the
three bytes after the first are at most `0x7F`; in particular a module with
magic `4D 5A` at offset 0, the signature first at `0x100`, length bytes
`00 02 00 00` in the length field and at least `0x100 + 512` bytes makes Extract
return exactly 512 bytes starting at `0x100`. -/
theorem C4_getUInt32_little_endian :
    (∀ (buf : QByteArray) (start : Nat) (b0 b1 b2 b3 : Byte),
      buf[start]? = some b0 → buf[start + 1]? = some b1 →
      buf[start + 2]? = some b2 → buf[start + 3]? = some b3 →
      b1.val < 128 → b2.val < 128 → b3.val < 128 →
      getUInt32 buf start true
        = some (b0.val + b1.val * 2 ^ 8 + b2.val * 2 ^ 16 + b3.val * 2 ^ 24)) ∧
    (∀ (DSDT_HEADER_SZ : Nat) (amiboardbuf : QByteArray),
      amiboardbuf.length < 2 ^ 31 → hasDosMagic amiboardbuf →
      indexOf amiboardbuf DSDT_HEADER = ((0x100 : Nat) : Int) →
      amiboardbuf[0x100 + DSDT_HEADER_SZ]? = some 0x00 →
      amiboardbuf[0x100 + DSDT_HEADER_SZ + 1]? = some 0x02 →
      amiboardbuf[0x100 + DSDT_HEADER_SZ + 2]? = some 0x00 →
      amiboardbuf[0x100 + DSDT_HEADER_SZ + 3]? = some 0x00 →
      0x100 + 512 ≤ amiboardbuf.length →
      extractDSDTfromAmiboardInfo DSDT_HEADER_SZ amiboardbuf []
        = some (ERR_SUCCESS, (amiboardbuf.drop 0x100).take 512) ∧
      ((amiboardbuf.drop 0x100).take 512).length = 512) := by
  have part1 : ∀ (buf : QByteArray) (start : Nat) (b0 b1 b2 b3 : Byte),
      buf[start]? = some b0 → buf[start + 1]? = some b1 →
      buf[start + 2]? = some b2 → buf[start + 3]? = some b3 →
      b1.val < 128 → b2.val < 128 → b3.val < 128 →
      getUInt32 buf start true
        = some (b0.val + b1.val * 2 ^ 8 + b2.val * 2 ^ 16 + b3.val * 2 ^ 24) := by
    intro buf start b0 b1 b2 b3 h0 h1 h2 h3 hb1 hb2 hb3
    have hb0 := b0.isLt
    unfold getUInt32
    simp only [Nat.add_zero, h0, h1, h2, h3, if_true]
    congr 1
    unfold qFromBigEndian qbswap32 shiftAdd charToUINT32
    rw [if_pos hb1, if_pos hb2, if_pos hb3]
    split <;> omega
  refine ⟨part1, ?_⟩
  intro DSDT_HEADER_SZ amiboardbuf hlen hmagic hoff h0 h1 h2 h3 hfit
  have hsize := part1 amiboardbuf (0x100 + DSDT_HEADER_SZ) 0x00 0x02 0x00 0x00 h0 h1 h2 h3
    (by decide) (by decide) (by decide)
  have hval : ((0x00 : Byte).val + (0x02 : Byte).val * 2 ^ 8 + (0x00 : Byte).val * 2 ^ 16
      + (0x00 : Byte).val * 2 ^ 24) = 512 := by decide
  rw [hval] at hsize
  rw [extract_at DSDT_HEADER_SZ amiboardbuf [] 0x100 hlen
    ((e_magic_eq_iff amiboardbuf).mpr hmagic) hoff, hsize]
  simp only
  rw [if_neg (by omega)]
  refine ⟨by simp, ?_⟩
  rw [List.length_take, List.length_drop]
  omega

/-- Witness of C4 (amended) on the bytes `00 02 00 00`, read as 512, and on
`exampleModuleLE` with the length field 4 bytes past the start of the
signature. -/
theorem C4_getUInt32_little_endian_witness :
    getUInt32 [0x00, 0x02, 0x00, 0x00] 0 true
      = some ((0x00 : Byte).val + (0x02 : Byte).val * 2 ^ 8 + (0x00 : Byte).val * 2 ^ 16
        + (0x00 : Byte).val * 2 ^ 24) ∧
    extractDSDTfromAmiboardInfo 4 exampleModuleLE []
      = some (ERR_SUCCESS, (exampleModuleLE.drop 0x100).take 512) ∧
    ((exampleModuleLE.drop 0x100).take 512).length = 512 :=
  ⟨C4_getUInt32_little_endian.1 [0x00, 0x02, 0x00, 0x00] 0 0 2 0 0 rfl rfl rfl rfl
    (by decide) (by decide) (by decide),
   C4_getUInt32_little_endian.2 4 exampleModuleLE (by decide) (by decide) (by decide)
    (by decide) (by decide) (by decide) (by decide) (by decide)⟩

/-- C5: for a buffer with valid magic that contains the signature at first
position `offset`, with `declaredSize` the length read from the table, both
operations return `ERR_INVALID_PARAMETER` exactly when
`declaredSize > bufferLength - offset`; when the check passes,
`offset + declaredSize <= bufferLength`. -/
theorem C5_invalid_size_iff (DSDT_HEADER_SZ : Nat) (amiboardbuf dsdtbuf out : QByteArray) (offset declaredSize : Nat)
    (hlen : amiboardbuf.length < 2 ^ 31)
    (hmagic : hasDosMagic amiboardbuf)
    (hoff : indexOf amiboardbuf DSDT_HEADER = (offset : Int))
    (hsize : getUInt32 amiboardbuf (offset + DSDT_HEADER_SZ) true = some declaredSize) :
    ((extractDSDTfromAmiboardInfo DSDT_HEADER_SZ amiboardbuf out).map Prod.fst = some ERR_INVALID_PARAMETER ↔
      declaredSize > amiboardbuf.length - offset) ∧
    ((injectDSDTintoAmiboardInfo DSDT_HEADER_SZ amiboardbuf dsdtbuf out).map Prod.fst
        = some ERR_INVALID_PARAMETER ↔
      declaredSize > amiboardbuf.length - offset) ∧
    (¬ declaredSize > amiboardbuf.length - offset →
      offset + declaredSize ≤ amiboardbuf.length) := by
  have hm := (e_magic_eq_iff amiboardbuf).mpr hmagic
  have hb := indexOf_DSDT_bound hoff
  obtain ⟨i1, i2, i3⟩ := inject_checks_at DSDT_HEADER_SZ amiboardbuf dsdtbuf out offset declaredSize hlen hm
    hoff hsize
  refine ⟨?_, ?_, ?_⟩
  · rw [extract_at DSDT_HEADER_SZ amiboardbuf out offset hlen hm hoff, hsize]
    simp only
    by_cases hgt : declaredSize > amiboardbuf.length - offset
    · rw [if_pos hgt]
      simp [hgt]
    · rw [if_neg hgt]
      simp [hgt]
  · by_cases hgt : declaredSize > amiboardbuf.length - offset
    · rw [i1 hgt]
      simp [hgt]
    · by_cases hk : indexOf amiboardbuf UNPATCHABLE_SECTION > 0
      · rw [i2 hgt hk]
        simp [hgt]
      · obtain ⟨res, hres⟩ := i3 hgt hk
        rw [hres]
        simp [hgt]
  · intro hgt
    omega

/-- Witness of C5 on `sampleModule` (`offset = 4`, `declaredSize = 12`). -/
theorem C5_invalid_size_iff_witness :
    ((extractDSDTfromAmiboardInfo 4 sampleModule []).map Prod.fst = some ERR_INVALID_PARAMETER ↔
      12 > sampleModule.length - 4) ∧
    ((injectDSDTintoAmiboardInfo 4 sampleModule sampleTable []).map Prod.fst
        = some ERR_INVALID_PARAMETER ↔
      12 > sampleModule.length - 4) ∧
    (¬ 12 > sampleModule.length - 4 → 4 + 12 ≤ sampleModule.length) :=
  C5_invalid_size_iff 4 sampleModule sampleTable [] 4 12 (by decide) (by decide) (by decide)
    (by decide)

/-- C6: on every buffer whose first two bytes are not the magic `4D 5A` both
operations return `ERR_INVALID_FILE` (with `out` untouched) whatever the rest of
the buffer is; they return `ERR_INVALID_FILE` for no other reason; and that code
differs from the codes of the not-found, invalid-size and unsupported-layout
failures. -/
theorem C6_invalid_file :
    (∀ (DSDT_HEADER_SZ : Nat) (amiboardbuf dsdtbuf out : QByteArray),
      ¬ hasDosMagic amiboardbuf →
      extractDSDTfromAmiboardInfo DSDT_HEADER_SZ amiboardbuf out
        = some (ERR_INVALID_FILE, out) ∧
      injectDSDTintoAmiboardInfo DSDT_HEADER_SZ amiboardbuf dsdtbuf out
        = some (ERR_INVALID_FILE, out)) ∧
    (∀ (DSDT_HEADER_SZ : Nat) (amiboardbuf out out' : QByteArray),
      extractDSDTfromAmiboardInfo DSDT_HEADER_SZ amiboardbuf out
        = some (ERR_INVALID_FILE, out') →
      ¬ hasDosMagic amiboardbuf) ∧
    (∀ (DSDT_HEADER_SZ : Nat) (amiboardbuf dsdtbuf out out' : QByteArray),
      injectDSDTintoAmiboardInfo DSDT_HEADER_SZ amiboardbuf dsdtbuf out
        = some (ERR_INVALID_FILE, out') →
      ¬ hasDosMagic amiboardbuf) ∧
    ERR_INVALID_FILE ≠ ERR_FILE_NOT_FOUND ∧
    ERR_INVALID_FILE ≠ ERR_INVALID_PARAMETER ∧
    ERR_INVALID_FILE ≠ ERR_ERROR := by
  refine ⟨?_, ?_, ?_, by decide, by decide, by decide⟩
  · intro DSDT_HEADER_SZ amiboardbuf dsdtbuf out hm
    have hne : e_magic amiboardbuf ≠ EFI_IMAGE_DOS_SIGNATURE :=
      fun h => hm ((e_magic_eq_iff amiboardbuf).mp h)
    exact ⟨extract_bad_magic DSDT_HEADER_SZ amiboardbuf out hne,
      inject_bad_magic DSDT_HEADER_SZ amiboardbuf dsdtbuf out hne⟩
  · intro DSDT_HEADER_SZ amiboardbuf out out' h hm
    exact extract_ne_invalid_file DSDT_HEADER_SZ amiboardbuf out out'
      ((e_magic_eq_iff amiboardbuf).mpr hm) h
  · intro DSDT_HEADER_SZ amiboardbuf dsdtbuf out out' h hm
    exact inject_ne_invalid_file DSDT_HEADER_SZ amiboardbuf dsdtbuf out out'
      ((e_magic_eq_iff amiboardbuf).mpr hm) h

/-- Witness of C6 on `sampleBadMagic`, a buffer with a whole table behind the
bytes `5A 4D`. -/
theorem C6_invalid_file_witness :
    ¬ hasDosMagic sampleBadMagic ∧
    extractDSDTfromAmiboardInfo 4 sampleBadMagic [9] = some (ERR_INVALID_FILE, [9]) ∧
    injectDSDTintoAmiboardInfo 4 sampleBadMagic sampleTable [9] = some (ERR_INVALID_FILE, [9]) :=
  ⟨by decide, C6_invalid_file.1 4 sampleBadMagic sampleTable [9] (by decide)⟩

/-- C7: for a module that passes the magic, signature and declared-size checks
and holds the marker `.ROM` at any index `k`, `injectDSDTintoAmiboardInfo` fails
with `ERR_ERROR` for every replacement table and leaves `out` untouched; the
test `indexOf(marker) > 0` of the code holds, so no occurrence is missed. -/
theorem C7_unpatchable_marker (DSDT_HEADER_SZ : Nat) (amiboardbuf dsdtbuf out : QByteArray) (O S k : Nat)
    (hlen : amiboardbuf.length < 2 ^ 31)
    (hmagic : hasDosMagic amiboardbuf)
    (hoff : indexOf amiboardbuf DSDT_HEADER = (O : Int))
    (hsize : getUInt32 amiboardbuf (O + DSDT_HEADER_SZ) true = some S)
    (hfit : S ≤ amiboardbuf.length - O)
    (hk : occursAt amiboardbuf UNPATCHABLE_SECTION k) :
    injectDSDTintoAmiboardInfo DSDT_HEADER_SZ amiboardbuf dsdtbuf out = some (ERR_ERROR, out) ∧
    indexOf amiboardbuf UNPATCHABLE_SECTION > 0 := by
  have hm := (e_magic_eq_iff amiboardbuf).mpr hmagic
  have hpos : indexOf amiboardbuf UNPATCHABLE_SECTION > 0 := by
    rcases indexOf_cases amiboardbuf UNPATCHABLE_SECTION UNPATCHABLE_SECTION_ne_nil
      with h | ⟨M, h⟩
    · exact absurd hk
        ((indexOf_eq_neg_one_iff amiboardbuf UNPATCHABLE_SECTION UNPATCHABLE_SECTION_ne_nil).mp
          h k)
    · rw [h]
      have hocc := ((indexOf_eq_natCast_iff amiboardbuf UNPATCHABLE_SECTION
        UNPATCHABLE_SECTION_ne_nil M).mp h).1
      have hM : M ≠ 0 := by
        rintro rfl
        unfold occursAt at hocc
        obtain ⟨h0, _⟩ := hmagic
        rcases amiboardbuf with _ | ⟨b0, rest⟩
        · simp at h0
        · simp only [List.getElem?_cons_zero, Option.some.injEq] at h0
          subst h0
          simp [UNPATCHABLE_SECTION] at hocc
      omega
  exact ⟨(inject_checks_at DSDT_HEADER_SZ amiboardbuf dsdtbuf out O S hlen hm hoff hsize).2.1 (by omega) hpos,
    hpos⟩

/-- Witness of C7 on `sampleRomModule` (marker at index 12) with a table that is
not larger than the old one. -/
theorem C7_unpatchable_marker_witness :
    injectDSDTintoAmiboardInfo 4 sampleRomModule sampleTable [9] = some (ERR_ERROR, [9]) ∧
    indexOf sampleRomModule UNPATCHABLE_SECTION > 0 :=
  C7_unpatchable_marker 4 sampleRomModule sampleTable [9] 4 12 12 (by decide) (by decide)
    (by decide) (by decide) (by decide) (by decide)

/-- C8: for a buffer with valid magic, if the signature occurs nowhere both
operations fail with `ERR_FILE_NOT_FOUND`; otherwise the offset they use, the
value `O` of the scan, is the least index at which the signature occurs, and
both operations continue with that offset. -/
theorem C8_signature_scan (DSDT_HEADER_SZ : Nat) (amiboardbuf dsdtbuf out : QByteArray)
    (hlen : amiboardbuf.length < 2 ^ 31) (hdlen : dsdtbuf.length < 2 ^ 31)
    (hmagic : hasDosMagic amiboardbuf) :
    ((∀ k, ¬ occursAt amiboardbuf DSDT_HEADER k) →
      extractDSDTfromAmiboardInfo DSDT_HEADER_SZ amiboardbuf out = some (ERR_FILE_NOT_FOUND, out) ∧
      injectDSDTintoAmiboardInfo DSDT_HEADER_SZ amiboardbuf dsdtbuf out = some (ERR_FILE_NOT_FOUND, out)) ∧
    ((∃ k, occursAt amiboardbuf DSDT_HEADER k) →
      ∃ O : Nat,
        indexOf amiboardbuf DSDT_HEADER = (O : Int) ∧
        occursAt amiboardbuf DSDT_HEADER O ∧
        (∀ j, j < O → ¬ occursAt amiboardbuf DSDT_HEADER j) ∧
        extractDSDTfromAmiboardInfo DSDT_HEADER_SZ amiboardbuf out =
          (match getUInt32 amiboardbuf (O + DSDT_HEADER_SZ) true with
           | none => none
           | some size =>
             if size > amiboardbuf.length - O then some (ERR_INVALID_PARAMETER, out)
             else some (ERR_SUCCESS, out ++ (amiboardbuf.drop O).take size)) ∧
        injectDSDTintoAmiboardInfo DSDT_HEADER_SZ amiboardbuf dsdtbuf out =
          (match getUInt32 amiboardbuf (O + DSDT_HEADER_SZ) true with
           | none => none
           | some oldDSDTsize =>
             if oldDSDTsize > amiboardbuf.length - O then some (ERR_INVALID_PARAMETER, out)
             else if indexOf amiboardbuf UNPATCHABLE_SECTION > 0 then some (ERR_ERROR, out)
             else if dsdtbuf.length ≤ oldDSDTsize then
               some (ERR_SUCCESS,
                 out ++ amiboardbuf.take O ++ dsdtbuf
                   ++ List.replicate (oldDSDTsize - dsdtbuf.length) 0
                   ++ amiboardbuf.drop (O + oldDSDTsize))
             else some (ERR_SUCCESS, out))) := by
  have hm := (e_magic_eq_iff amiboardbuf).mpr hmagic
  constructor
  · intro hnone
    have hoff := (indexOf_eq_neg_one_iff amiboardbuf DSDT_HEADER DSDT_HEADER_ne_nil).mpr hnone
    exact ⟨extract_not_found DSDT_HEADER_SZ amiboardbuf out hm hoff,
      inject_not_found DSDT_HEADER_SZ amiboardbuf dsdtbuf out hm hoff⟩
  · rintro ⟨k, hk⟩
    rcases indexOf_cases amiboardbuf DSDT_HEADER DSDT_HEADER_ne_nil with h | ⟨O, h⟩
    · exact absurd hk
        ((indexOf_eq_neg_one_iff amiboardbuf DSDT_HEADER DSDT_HEADER_ne_nil).mp h k)
    · obtain ⟨h1, h2⟩ := (indexOf_eq_natCast_iff amiboardbuf DSDT_HEADER DSDT_HEADER_ne_nil O).mp h
      exact ⟨O, h, h1, h2, extract_at DSDT_HEADER_SZ amiboardbuf out O hlen hm h,
        inject_at DSDT_HEADER_SZ amiboardbuf dsdtbuf out O hlen hdlen hm h⟩

/-- Witness of C8 on `sampleNoTable`, a buffer with valid magic and no
signature: both operations return `ERR_FILE_NOT_FOUND`. -/
theorem C8_signature_scan_witness :
    extractDSDTfromAmiboardInfo 4 sampleNoTable [9] = some (ERR_FILE_NOT_FOUND, [9]) ∧
    injectDSDTintoAmiboardInfo 4 sampleNoTable sampleTable [9] = some (ERR_FILE_NOT_FOUND, [9]) :=
  (C8_signature_scan 4 sampleNoTable sampleTable [9] (by decide) (by decide) (by decide)).1
    (by
      intro k hk
      have hb := occursAt_bound hk
      have hk3 : k ≤ 3 := by
        rcases hb with hb | hb
        · have : sampleNoTable.length = 7 := by decide
          have : DSDT_HEADER.length = 4 := by decide
          omega
        · exact absurd hb DSDT_HEADER_ne_nil
      have hall : ∀ j, j ≤ 3 → ¬ occursAt sampleNoTable DSDT_HEADER j := by decide
      exact hall k hk3 hk)

/-- C9 (counterexample): for the body `01 02 03`, the null identifier and the
name `AB`, the 24 header bytes emitted by `ffsCreate` sum to `0xB1 = 177` modulo
256, not to 0. -/
theorem C9_counterexample :
    byteSum (((ffsCreate nullUuid none [1, 2, 3] [] sampleName []).2.1).take
      sizeof_EFI_FFS_FILE_HEADER) % 256 = 177 ∧
    ¬ byteSum (((ffsCreate nullUuid none [1, 2, 3] [] sampleName []).2.1).take
      sizeof_EFI_FFS_FILE_HEADER) % 256 = 0 := by
  refine ⟨by decide, by decide⟩

/-- C9 (amended): for every body, identifier text and display name (and every
value of the static), the first 24 bytes of the buffer produced by `ffsCreate`,
with the data-checksum byte (offset 17) and the state byte (offset 23) counted
as zero, sum to 0 modulo 256; the header as emitted sums to
`FFS_FIXED_CHECKSUM2 + state = 0xAA + 0x07` modulo 256. -/
theorem C9_header_checksum (parseUuid : QString → QUuid) (staticSize : Option Nat)
    (body : QByteArray) (guid sectionName : QString) (out : QByteArray) :
    (((ffsCreate parseUuid staticSize body guid sectionName out).2.1).take 24).length = 24 ∧
    byteSum (((((ffsCreate parseUuid staticSize body guid sectionName out).2.1).take 24).set
      17 0).set 23 0) % 256 = 0 ∧
    byteSum (((ffsCreate parseUuid staticSize body guid sectionName out).2.1).take 24) % 256
      = (0xAA + 0x07) % 256 := by
  obtain ⟨cs, s0, s1, s2, hcs, hb⟩ :=
    ffsCreate_header parseUuid staticSize body guid sectionName out
  rw [hb]
  have h0 := s0.isLt
  have h1 := s1.isLt
  have h2 := s2.isLt
  have hc := cs.isLt
  refine ⟨by simp [QUuid.memory_length], ?_, ?_⟩
  · have e : ((parseUuid guid).memory ++ [cs, 0xAA, 0x02, 0x00, s0, s1, s2, 0x07]).set 17 0
        = (parseUuid guid).memory ++ [cs, 0x00, 0x02, 0x00, s0, s1, s2, 0x07] := by
      rw [List.set_append_right _ _ (by simp [QUuid.memory_length])]
      simp [QUuid.memory_length]
    have e' : ((parseUuid guid).memory ++ [cs, 0x00, 0x02, 0x00, s0, s1, s2, 0x07]).set 23 0
        = (parseUuid guid).memory ++ [cs, 0x00, 0x02, 0x00, s0, s1, s2, 0x00] := by
      rw [List.set_append_right _ _ (by simp [QUuid.memory_length])]
      simp [QUuid.memory_length]
    rw [e, e', byteSum_append]
    simp only [byteSum, List.map_cons, List.map_nil, List.sum_cons, List.sum_nil] at hcs ⊢
    simp
    omega
  · rw [byteSum_append]
    simp only [byteSum, List.map_cons, List.map_nil, List.sum_cons, List.sum_nil] at hcs ⊢
    simp
    omega

/-- C10: for every body and display name (and every identifier and value of the
static), in the buffer produced by `ffsCreate` the user-interface (name) section
header starts at offset `24 + 4 + len(body) + pad` from the start of the file,
which is a multiple of 4: the code aligns relative to the start of the file body
and the 24-byte file header keeps the alignment. -/
theorem C10_name_section_aligned (parseUuid : QString → QUuid) (staticSize : Option Nat)
    (body : QByteArray) (guid sectionName : QString) (out : QByteArray) :
    ∃ off : Nat,
      off = sizeof_EFI_FFS_FILE_HEADER
        + (sizeof_EFI_COMMON_SECTION_HEADER + body.length
          + (4 - (sizeof_EFI_COMMON_SECTION_HEADER + body.length) % 4) % 4) ∧
      off % 4 = 0 ∧
      ((ffsCreate parseUuid staticSize body guid sectionName out).2.1).drop off =
        (EFI_COMMON_SECTION_HEADER.bytes
          { Size := uint32ToUint24 (toUINT32 (sizeof_EFI_COMMON_SECTION_HEADER
              + (utf16Bytes sectionName).length)),
            Type_ := EFI_SECTION_USER_INTERFACE })
          ++ utf16Bytes sectionName ∧
      ((ffsCreate parseUuid staticSize body guid sectionName out).2.1).length
        = off + sizeof_EFI_COMMON_SECTION_HEADER + 2 * sectionName.length := by
  obtain ⟨cs, s0, s1, s2, _, hb⟩ := ffsCreate_out parseUuid staticSize body guid sectionName out
  refine ⟨_, rfl, ?_, ?_, ?_⟩
  · unfold sizeof_EFI_FFS_FILE_HEADER sizeof_EFI_COMMON_SECTION_HEADER
    omega
  · rw [hb, ffsCreate_fileBody_eq]
    simp only [← List.append_assoc]
    rw [List.append_assoc _ _ (utf16Bytes sectionName)]
    apply List.drop_left'
    simp [QUuid.memory_length, sizeof_EFI_FFS_FILE_HEADER, sizeof_EFI_COMMON_SECTION_HEADER]
    omega
  · rw [hb, ffsCreate_fileBody_eq]
    simp [QUuid.memory_length, utf16Bytes_length, sizeof_EFI_FFS_FILE_HEADER,
      sizeof_EFI_COMMON_SECTION_HEADER]
    omega

/-- C11: for a body shorter than `2^24 - 4` bytes the size field of the content
section built by `ffsCreate` (offset 24 of the file) decodes to `4 + len(body)`,
and for a display name whose UTF-16 payload is shorter than `2^24 - 4` bytes the
size field of the name section decodes to `4 + 2*len(displayName)`: decoding
yields `headerSize + n` for every payload length `n < 2^24 - headerSize`. -/
theorem C11_section_size_decodes (parseUuid : QString → QUuid) (staticSize : Option Nat)
    (body : QByteArray) (guid sectionName : QString) (out : QByteArray) :
    (body.length < 2 ^ 24 - sizeof_EFI_COMMON_SECTION_HEADER →
      (sizeFieldAt (ffsCreate parseUuid staticSize body guid sectionName out).2.1
          sizeof_EFI_FFS_FILE_HEADER).map uint24ToUint32
        = some (sizeof_EFI_COMMON_SECTION_HEADER + body.length)) ∧
    (2 * sectionName.length < 2 ^ 24 - sizeof_EFI_COMMON_SECTION_HEADER →
      (sizeFieldAt (ffsCreate parseUuid staticSize body guid sectionName out).2.1
          (sizeof_EFI_FFS_FILE_HEADER + (sizeof_EFI_COMMON_SECTION_HEADER + body.length
            + (4 - (sizeof_EFI_COMMON_SECTION_HEADER + body.length) % 4) % 4))).map
          uint24ToUint32
        = some (sizeof_EFI_COMMON_SECTION_HEADER + 2 * sectionName.length)) := by
  obtain ⟨fileHeader, hlen, _, hb⟩ :=
    ffsCreate_layout parseUuid staticSize body guid sectionName out
  unfold sizeof_EFI_COMMON_SECTION_HEADER sizeof_EFI_FFS_FILE_HEADER
  constructor
  · intro hn
    rw [hb, toUINT32_four_add body.length (by omega)]
    simp only [List.append_assoc]
    rw [← List.append_assoc]
    exact sizeFieldAt_section _ _ _ _ _ hlen (by omega)
  · intro hn
    have hu := utf16Bytes_length sectionName
    rw [hb, toUINT32_four_add (utf16Bytes sectionName).length (by omega), hu]
    exact sizeFieldAt_section _ _ _ _ _ (by simp [hlen, EFI_COMMON_SECTION_HEADER.bytes]; omega)
      (by omega)

/-- Witness of C11 on the body `01 02 03` and the name `AB`: the content section
field decodes to 7 and the name section field, at offset 32, to 8. -/
theorem C11_section_size_decodes_witness :
    (sizeFieldAt (ffsCreate nullUuid none [1, 2, 3] [] sampleName []).2.1 24).map uint24ToUint32
        = some 7 ∧
    (sizeFieldAt (ffsCreate nullUuid none [1, 2, 3] [] sampleName []).2.1 32).map uint24ToUint32
        = some 8 :=
  ⟨(C11_section_size_decodes nullUuid none [1, 2, 3] [] sampleName []).1 (by decide),
   (C11_section_size_decodes nullUuid none [1, 2, 3] [] sampleName []).2 (by decide)⟩

/-- C12 (what the code does): the static `size` keeps the value of the first
call.  After a first call with the body `01 02 03` and the name `AB` (file body
of 16 bytes), a second call with the body `01 02 03 04 05` returns a buffer of
44 bytes whose header size field decodes to 40, the total of the first call. -/
theorem C12_static_size_stale :
    (ffsCreate nullUuid none [1, 2, 3] [] sampleName []).2.2 = some 16 ∧
    (sizeFieldAt (ffsCreate nullUuid (ffsCreate nullUuid none [1, 2, 3] [] sampleName []).2.2
        [1, 2, 3, 4, 5] [] sampleName []).2.1 20).map uint24ToUint32 = some 40 ∧
    (ffsCreate nullUuid (ffsCreate nullUuid none [1, 2, 3] [] sampleName []).2.2
        [1, 2, 3, 4, 5] [] sampleName []).2.1.length = 44 := by
  refine ⟨by decide, by decide, by decide⟩

/-- C13 (what the code does): the output of `ffsCreate` depends on the calls
made before.  The call with the body `01 02 03 04 05`, the empty identifier text
and the name `AB` writes the size bytes `2C 00 00` when it is the first call and
`28 00 00` when it follows a call with the body `01 02 03`; the two outputs
differ. -/
theorem C13_output_depends_on_history :
    (ffsCreate nullUuid none [1, 2, 3, 4, 5] [] sampleName []).2.1 ≠
      (ffsCreate nullUuid (ffsCreate nullUuid none [1, 2, 3] [] sampleName []).2.2
        [1, 2, 3, 4, 5] [] sampleName []).2.1 ∧
    sizeFieldAt (ffsCreate nullUuid none [1, 2, 3, 4, 5] [] sampleName []).2.1 20
      = some (0x2C, 0x00, 0x00) ∧
    sizeFieldAt (ffsCreate nullUuid (ffsCreate nullUuid none [1, 2, 3] [] sampleName []).2.2
        [1, 2, 3, 4, 5] [] sampleName []).2.1 20 = some (0x28, 0x00, 0x00) := by
  refine ⟨by decide, by decide, by decide⟩

/-- C14 (counterexample): the text `not-a-guid` is not a well-formed identifier
(it has 10 characters, not 36), yet `ffsCreate` returns `ERR_SUCCESS` on it; Qt
builds the null identifier from such a text and the 16 name bytes are zero. -/
theorem C14_counterexample :
    isGuidText (qs "not-a-guid") = false ∧
    (ffsCreate nullUuid none [1, 2, 3] (qs "not-a-guid") sampleName []).1 = ERR_SUCCESS ∧
    ((ffsCreate nullUuid none [1, 2, 3] (qs "not-a-guid") sampleName []).2.1).take 16
      = List.replicate 16 0 := by
  refine ⟨by decide, by decide, by decide⟩

/-- C14 (amended): `ffsCreate` never returns a failure code: for every
identifier text, well-formed or not, it returns `ERR_SUCCESS`, and the 16 name
bytes of the header are the bytes of the `QUuid` that Qt constructs from the
text. -/
theorem C14_always_succeeds (parseUuid : QString → QUuid) (staticSize : Option Nat)
    (body : QByteArray) (guid sectionName : QString) (out : QByteArray) :
    (ffsCreate parseUuid staticSize body guid sectionName out).1 = ERR_SUCCESS ∧
    ((ffsCreate parseUuid staticSize body guid sectionName out).2.1).take 16
      = (parseUuid guid).memory ∧
    (parseUuid guid).memory.length = 16 := by
  obtain ⟨fileHeader, hlen, hname, hb⟩ :=
    ffsCreate_layout parseUuid staticSize body guid sectionName out
  refine ⟨(ffsCreate_code parseUuid staticSize body guid sectionName out).1, ?_,
    QUuid.memory_length _⟩
  rw [hb]
  simp only [List.append_assoc]
  rw [List.take_append_of_le_length (by omega)]
  exact hname

/-- C15 (what the code does): the index `-1` is outside `[0, 15]`, yet on the
readable bundle `K` of `sampleEnv` `convertKext` returns `ERR_SUCCESS`, the
builder is invoked (the static of `ffsCreate` is set) and `out` is replaced by a
built file; only an index above 15 is rejected. -/
theorem C15_negative_index_accepted :
    (convertKext sampleEnv sampleTemplate none (qs "K") (-1) (qs "MyKext") [9]).1 = ERR_SUCCESS ∧
    (convertKext sampleEnv sampleTemplate none (qs "K") (-1) (qs "MyKext") [9]).2.1 ≠ [9] ∧
    (convertKext sampleEnv sampleTemplate none (qs "K") (-1) (qs "MyKext") [9]).2.2 ≠ none ∧
    convertKext sampleEnv sampleTemplate none (qs "K") 16 (qs "MyKext") [9]
      = (ERR_ERROR, [9], none) := by
  refine ⟨by decide, by decide, by decide, by decide⟩

/-- C16: for a readable bundle with a non-empty executable-name field and an
index `i` in `[0, 15]`, `convertKext` succeeds with the output of the builder
called on the body `plist ++ 00 ++ executable`, with the display name
`baseName ++ ".Rev-" ++ version` when the version field is present and non-empty
and `baseName` otherwise, and with the identifier text equal to the upper-cased
template whose place marker holds the single upper-case hexadecimal digit of
`i`.  The base name and the version are texts that `qPrintable` hands to
`sprintf` unchanged. -/
theorem C16_builder_arguments (env : Env) (kextGUID : GuidTemplate) (staticSize : Option Nat)
    (input : QString) (kextIndex : Int) (basename : QString) (out : QByteArray)
    (plistbuf binarybuf : QByteArray) (execName : QString)
    (hi0 : 0 ≤ kextIndex) (hi15 : kextIndex ≤ 15)
    (hdir : env.dirExists (macOSDirOf env input) = true)
    (hplist : env.fileExists (plistPathOf env input) = true)
    (hplistRead : env.readAll (plistPathOf env input) = some plistbuf)
    (hexec : env.plistValue plistbuf (qs "CFBundleExecutable") = some execName)
    (hexecNe : execName ≠ [])
    (hbin : env.fileExists (env.filePath (macOSDirOf env input) execName) = true)
    (hbinRead : env.readAll (env.filePath (macOSDirOf env input) execName) = some binarybuf)
    (hbase : env.printable basename = basename)
    (hver : ∀ v, env.plistValue plistbuf (qs "CFBundleShortVersionString") = some v →
      env.printable v = v) :
    convertKext env kextGUID staticSize input kextIndex basename out =
      (ERR_SUCCESS,
        (ffsCreate env.parseUuid staticSize (plistbuf ++ [0] ++ binarybuf)
          (toUpper kextGUID.before ++ [upperHexDigitChar kextIndex.toNat]
            ++ toUpper kextGUID.after)
          (match env.plistValue plistbuf (qs "CFBundleShortVersionString") with
            | some v => if v = [] then basename else basename ++ qs ".Rev-" ++ v
            | none => basename)
          out).2) := by
  rw [convertKext_builds env kextGUID staticSize input kextIndex basename out plistbuf binarybuf
    execName hi15 hdir hplist hplistRead hexec hexecNe hbin hbinRead]
  have hg : toUpper (kextGUID.arg (argHex kextIndex))
      = toUpper kextGUID.before ++ [upperHexDigitChar kextIndex.toNat]
        ++ toUpper kextGUID.after := by
    unfold GuidTemplate.arg
    rw [toUpper_append, toUpper_append, toUpper_argHex kextIndex hi0 hi15]
  rw [hg]
  cases hv : env.plistValue plistbuf (qs "CFBundleShortVersionString") with
  | none =>
    simp only [plistReadBundleVersion_none env plistbuf hv]
    simp
  | some v =>
    by_cases hne : v = []
    · subst hne
      simp only [plistReadBundleVersion_empty env plistbuf hv]
      simp
    · simp only [plistReadBundleVersion_some env plistbuf v hv hne, hbase, hver v hv]
      simp [hne]

/-- Witness of C16 on the bundle of `sampleEnv` (executable `Foo`, version
`1.2`), the base name `MyKext` and the index 3: the display name is
`MyKext.Rev-1.2` and the identifier text `DADE1003-1B31-4FE4-8557-26FCEFC78275`;
on the bundle of `sampleEnvNoVersion`, without a version field, the display name
is `MyKext`. -/
theorem C16_builder_arguments_witness :
    convertKext sampleEnv sampleTemplate none (qs "K") 3 (qs "MyKext") [] =
      (ERR_SUCCESS,
        (ffsCreate sampleEnv.parseUuid none ([1, 2] ++ [0] ++ [3, 4, 5])
          (toUpper sampleTemplate.before ++ [upperHexDigitChar (3 : Int).toNat]
            ++ toUpper sampleTemplate.after)
          (match sampleEnv.plistValue [1, 2] (qs "CFBundleShortVersionString") with
            | some v => if v = [] then qs "MyKext" else qs "MyKext" ++ qs ".Rev-" ++ v
            | none => qs "MyKext")
          []).2) ∧
    (toUpper sampleTemplate.before ++ [upperHexDigitChar (3 : Int).toNat]
      ++ toUpper sampleTemplate.after) = qs "DADE1003-1B31-4FE4-8557-26FCEFC78275" ∧
    (match sampleEnv.plistValue [1, 2] (qs "CFBundleShortVersionString") with
      | some v => if v = [] then qs "MyKext" else qs "MyKext" ++ qs ".Rev-" ++ v
      | none => qs "MyKext") = qs "MyKext.Rev-1.2" ∧
    convertKext sampleEnvNoVersion sampleTemplate none (qs "K") 3 (qs "MyKext") [] =
      (ERR_SUCCESS,
        (ffsCreate sampleEnvNoVersion.parseUuid none ([1, 2] ++ [0] ++ [3, 4, 5])
          (toUpper sampleTemplate.before ++ [upperHexDigitChar (3 : Int).toNat]
            ++ toUpper sampleTemplate.after)
          (match sampleEnvNoVersion.plistValue [1, 2] (qs "CFBundleShortVersionString") with
            | some v => if v = [] then qs "MyKext" else qs "MyKext" ++ qs ".Rev-" ++ v
            | none => qs "MyKext")
          []).2) ∧
    (match sampleEnvNoVersion.plistValue [1, 2] (qs "CFBundleShortVersionString") with
      | some v => if v = [] then qs "MyKext" else qs "MyKext" ++ qs ".Rev-" ++ v
      | none => qs "MyKext") = qs "MyKext" :=
  ⟨C16_builder_arguments sampleEnv sampleTemplate none (qs "K") 3 (qs "MyKext") [] [1, 2]
      [3, 4, 5] (qs "Foo") (by decide) (by decide) (by decide) (by decide) (by decide)
      (by decide) (by decide) (by decide) (by decide) rfl (fun _ _ => rfl),
    by decide, by decide,
    C16_builder_arguments sampleEnvNoVersion sampleTemplate none (qs "K") 3 (qs "MyKext") []
      [1, 2] [3, 4, 5] (qs "Foo") (by decide) (by decide) (by decide) (by decide) (by decide)
      (by decide) (by decide) (by decide) (by decide) rfl (fun _ _ => rfl),
    by decide⟩

/-- C17 (counterexample): on the bundle of `sampleEnvNoBinary`, whose plist names
the executable `Foo` while `K/Contents/MacOS/Foo` does not exist, `convertKext`
returns `ERR_ERROR`, which is not `ERR_FILE_NOT_FOUND`. -/
theorem C17_counterexample :
    sampleEnvNoBinary.plistValue [1, 2] (qs "CFBundleExecutable") = some (qs "Foo") ∧
    sampleEnvNoBinary.fileExists (qs "K/Contents/MacOS/Foo") = false ∧
    convertKext sampleEnvNoBinary sampleTemplate none (qs "K") 3 (qs "MyKext") [9]
      = (ERR_ERROR, [9], none) ∧
    (convertKext sampleEnvNoBinary sampleTemplate none (qs "K") 3 (qs "MyKext") [9]).1
      ≠ ERR_FILE_NOT_FOUND := by
  refine ⟨by decide, by decide, by decide, by decide⟩

/-- C17 (amended): for every bundle whose plist (readable when it exists) names
an executable that does not exist at `Contents/MacOS/<ExecutableName>`,
`convertKext` fails with the generic code `ERR_ERROR` and leaves `out` (and the
static of the builder) unchanged. -/
theorem C17_missing_executable (env : Env) (kextGUID : GuidTemplate) (staticSize : Option Nat)
    (input : QString) (kextIndex : Int) (basename : QString) (out : QByteArray)
    (plistbuf : QByteArray) (execName : QString)
    (hplistRead : env.fileExists (plistPathOf env input) = true →
      env.readAll (plistPathOf env input) = some plistbuf)
    (hexec : env.plistValue plistbuf (qs "CFBundleExecutable") = some execName)
    (hbin : env.fileExists (env.filePath (macOSDirOf env input) execName) = false) :
    convertKext env kextGUID staticSize input kextIndex basename out
      = (ERR_ERROR, out, staticSize) :=
  convertKext_no_binary env kextGUID staticSize input kextIndex basename out plistbuf execName
    hplistRead hexec hbin

/-- Witness of C17 (amended) on the bundle of `sampleEnvNoBinary`. -/
theorem C17_missing_executable_witness :
    convertKext sampleEnvNoBinary sampleTemplate none (qs "K") 3 (qs "MyKext") [9]
      = (ERR_ERROR, [9], none) :=
  C17_missing_executable sampleEnvNoBinary sampleTemplate none (qs "K") 3 (qs "MyKext") [9]
    [1, 2] (qs "Foo") (fun _ => by decide) (by decide) (by decide)

/-- C18: for every body and display name the buffer produced by `ffsCreate` is
exactly `fileHeader (24 bytes) ++ contentHeader (4 bytes) ++ body ++ p zero
bytes ++ nameHeader (4 bytes) ++` the UTF-16LE code units of the display name
without terminator, with `p = (4 - (4 + len(body)) mod 4) mod 4 < 4`; its length
is `32 + len(body) + p + 2*len(displayName)` and the body stands untruncated at
offset 28. -/
theorem C18_file_layout (parseUuid : QString → QUuid) (staticSize : Option Nat)
    (body : QByteArray) (guid sectionName : QString) (out : QByteArray) :
    ∃ (fileHeader contentHeader nameHeader : QByteArray) (p : Nat),
      fileHeader.length = 24 ∧ contentHeader.length = 4 ∧ nameHeader.length = 4 ∧
      p = (4 - (4 + body.length) % 4) % 4 ∧ p < 4 ∧
      (ffsCreate parseUuid staticSize body guid sectionName out).2.1 =
        fileHeader ++ contentHeader ++ body ++ List.replicate p (0 : Byte) ++ nameHeader
          ++ utf16Bytes sectionName ∧
      (utf16Bytes sectionName).length = 2 * sectionName.length ∧
      (∀ (i : Nat) (c : Fin 65536), sectionName[i]? = some c →
        (utf16Bytes sectionName)[2 * i]? = some (toByte c.val) ∧
        (utf16Bytes sectionName)[2 * i + 1]? = some (toByte (c.val / 2 ^ 8))) ∧
      ((ffsCreate parseUuid staticSize body guid sectionName out).2.1).length
        = 32 + body.length + p + 2 * sectionName.length ∧
      (((ffsCreate parseUuid staticSize body guid sectionName out).2.1).drop 28).take body.length
        = body := by
  obtain ⟨fileHeader, hlen, _, hb⟩ :=
    ffsCreate_layout parseUuid staticSize body guid sectionName out
  refine ⟨fileHeader, _, _, _, hlen, ?_, ?_, rfl, by omega, hb, utf16Bytes_length sectionName,
    utf16Bytes_getElem sectionName, ?_, ?_⟩
  · simp [EFI_COMMON_SECTION_HEADER.bytes]
  · simp [EFI_COMMON_SECTION_HEADER.bytes]
  · rw [hb]
    simp [hlen, EFI_COMMON_SECTION_HEADER.bytes, utf16Bytes_length]
    omega
  · rw [hb]
    simp only [List.append_assoc]
    rw [← List.append_assoc fileHeader, List.drop_left' (by simp [hlen,
      EFI_COMMON_SECTION_HEADER.bytes]), List.take_left']
    rfl

/-- C19 (what the code does): Extract does not undo Replace for a well-formed
table with a length byte above `0x7F`.  `wellFormedTable` begins with the
signature, has `0x8010 = 32784` bytes and declares that length in its length
field (`10 80 00 00`, little-endian).  Injected into `largeModule` (table of
65568 bytes at offset 4, no marker) through the no-growth path, it is found again
at offset 4, but `getUInt32` reads its length as `0x800F = 32783` and Extract
returns only the first 32783 bytes of the table, not the table. -/
theorem C19_round_trip_loses_byte :
    wellFormedTable.take 4 = DSDT_HEADER ∧
    wellFormedTable.length = 0x8010 ∧
    (wellFormedTable[4]?, wellFormedTable[5]?, wellFormedTable[6]?, wellFormedTable[7]?)
      = (some 0x10, some 0x80, some 0x00, some 0x00) ∧
    getUInt32 wellFormedTable 4 true = some 0x800F ∧
    ∃ patched : QByteArray,
      injectDSDTintoAmiboardInfo 4 largeModule wellFormedTable []
        = some (ERR_SUCCESS, patched) ∧
      indexOf patched DSDT_HEADER = ((4 : Nat) : Int) ∧
      extractDSDTfromAmiboardInfo 4 patched []
        = some (ERR_SUCCESS, wellFormedTable.take 32783) ∧
      (wellFormedTable.take 32783).length = 32783 ∧
      wellFormedTable.take 32783 ≠ wellFormedTable := by
  have htl : wellFormedTable.length = 32784 := by
    simp only [wellFormedTable, DSDT_HEADER, List.length_append, List.length_replicate,
      List.length_cons, List.length_nil]
  have hml : largeModule.length = 65572 := by
    simp only [largeModule, DSDT_HEADER, List.length_append, List.length_replicate,
      List.length_cons, List.length_nil]
  have hsig : wellFormedTable.take 4 = DSDT_HEADER := by decide
  have hread : getUInt32 wellFormedTable 4 true = some 32783 := by
    unfold wellFormedTable
    rw [getUInt32_append_left _ _ _ _ (by decide)]
    decide
  have hbytes : (wellFormedTable[4]?, wellFormedTable[5]?, wellFormedTable[6]?,
      wellFormedTable[7]?) = (some 0x10, some 0x80, some 0x00, some 0x00) := by
    have e : ∀ k, k < 8 →
        wellFormedTable[k]? = (DSDT_HEADER ++ [0x10, 0x80, 0x00, 0x00] : QByteArray)[k]? := by
      intro k hk
      unfold wellFormedTable
      exact List.getElem?_append_left (by simpa [DSDT_HEADER] using hk)
    rw [e 4 (by omega), e 5 (by omega), e 6 (by omega), e 7 (by omega)]
    decide
  have hmagic : hasDosMagic largeModule := by
    unfold largeModule
    exact hasDosMagic_append _ _ (by decide)
  have hoff : indexOf largeModule DSDT_HEADER = ((4 : Nat) : Int) := by decide
  have hsize : getUInt32 largeModule (4 + 4) true = some 65568 := by
    unfold largeModule
    rw [getUInt32_append_left _ _ _ _ (by decide)]
    decide
  have hmark : indexOf largeModule UNPATCHABLE_SECTION ≤ 0 := by
    have h : indexOf largeModule UNPATCHABLE_SECTION = -1 := by
      apply indexOf_eq_neg_one_of_not_mem
      simp only [largeModule, DSDT_HEADER, List.mem_append, List.mem_cons, List.mem_replicate,
        List.mem_nil_iff]
      decide
    omega
  have hlen : (wellFormedTable.take 32783).length = 32783 := by
    rw [List.length_take, htl]
    decide
  refine ⟨hsig, htl, hbytes, hread, ?_⟩
  obtain ⟨patched, h1, h2, h3⟩ := extract_after_inject 4 largeModule wellFormedTable 4 65568
    32783 (by omega) hmagic hoff hsize (by omega) hmark hsig hread (by omega) (by omega)
  refine ⟨patched, h1, h2, h3, hlen, ?_⟩
  intro hc
  have := congrArg List.length hc
  rw [hlen, htl] at this
  omega

/-- C20: `extractDSDTfromAmiboardInfo` and `injectDSDTintoAmiboardInfo` leave
`out` exactly as it was on every return with a non-success code; a successful
Extract and a successful no-growth Replace return the entry contents of `out`
followed by the result (what the call produces from an empty `out`), which is
the result alone only when `out` was empty on entry; `ffsCreate` clears `out`
first, so its output does not depend on the entry contents. -/
theorem C20_out_frame :
    (∀ (DSDT_HEADER_SZ : Nat) (amiboardbuf out : QByteArray) (code : ErrCode)
        (out' : QByteArray),
      extractDSDTfromAmiboardInfo DSDT_HEADER_SZ amiboardbuf out = some (code, out') →
      code ≠ ERR_SUCCESS → out' = out) ∧
    (∀ (DSDT_HEADER_SZ : Nat) (amiboardbuf dsdtbuf out : QByteArray) (code : ErrCode)
        (out' : QByteArray),
      injectDSDTintoAmiboardInfo DSDT_HEADER_SZ amiboardbuf dsdtbuf out = some (code, out') →
      code ≠ ERR_SUCCESS → out' = out) ∧
    (∀ (DSDT_HEADER_SZ : Nat) (amiboardbuf out out' : QByteArray),
      extractDSDTfromAmiboardInfo DSDT_HEADER_SZ amiboardbuf out = some (ERR_SUCCESS, out') →
      ∃ r, extractDSDTfromAmiboardInfo DSDT_HEADER_SZ amiboardbuf [] = some (ERR_SUCCESS, r) ∧
        out' = out ++ r ∧ (out' = r ↔ out = [])) ∧
    (∀ (DSDT_HEADER_SZ : Nat) (amiboardbuf dsdtbuf out out' : QByteArray) (O S : Nat),
      amiboardbuf.length < 2 ^ 31 →
      indexOf amiboardbuf DSDT_HEADER = (O : Int) →
      getUInt32 amiboardbuf (O + DSDT_HEADER_SZ) true = some S →
      dsdtbuf.length ≤ S →
      injectDSDTintoAmiboardInfo DSDT_HEADER_SZ amiboardbuf dsdtbuf out
        = some (ERR_SUCCESS, out') →
      ∃ r, injectDSDTintoAmiboardInfo DSDT_HEADER_SZ amiboardbuf dsdtbuf []
          = some (ERR_SUCCESS, r) ∧
        out' = out ++ r ∧ (out' = r ↔ out = [])) ∧
    (∀ (parseUuid : QString → QUuid) (staticSize : Option Nat) (body : QByteArray)
        (guid sectionName : QString) (out : QByteArray),
      ffsCreate parseUuid staticSize body guid sectionName out
        = ffsCreate parseUuid staticSize body guid sectionName []) := by
  have happ : ∀ (a r : QByteArray), (a ++ r = r ↔ a = []) := by
    intro a r
    constructor
    · intro h
      have := congrArg List.length h
      simp only [List.length_append] at this
      exact List.length_eq_zero.mp (by omega)
    · rintro rfl
      rfl
  refine ⟨?_, ?_, ?_, ?_, ffsCreate_clears_out⟩
  · intro hsz buf out code out' h hne
    rcases extract_frame hsz buf out code out' h with ⟨_, h2⟩ | ⟨h1, _⟩
    · exact h2
    · exact absurd h1 hne
  · intro hsz buf dsdt out code out' h hne
    exact inject_frame_failure hsz buf dsdt out code out' h hne
  · intro hsz buf out out' h
    rcases extract_frame hsz buf out ERR_SUCCESS out' h with ⟨h1, _⟩ | ⟨_, r, hr, ho⟩
    · exact absurd rfl h1
    · exact ⟨r, hr, ho, by rw [ho]; exact happ out r⟩
  · intro hsz buf dsdt out out' O S hlen hoff hsize hnew h
    have hm : e_magic buf = EFI_IMAGE_DOS_SIGNATURE := by
      by_contra hc
      rw [inject_bad_magic hsz buf dsdt out hc] at h
      simp at h
    have hb := getUInt32_some_bound hsize
    obtain ⟨i1, i2, _⟩ := inject_checks_at hsz buf dsdt out O S hlen hm hoff hsize
    have hfit : ¬ S > buf.length - O := by
      intro hc
      rw [i1 hc] at h
      simp at h
    have hmark : ¬ indexOf buf UNPATCHABLE_SECTION > 0 := by
      intro hc
      rw [i2 hfit hc] at h
      simp at h
    rw [inject_no_growth hsz buf dsdt out O S hlen hm hoff hsize (by omega) (by omega) hnew] at h
    simp only [Option.some.injEq, Prod.mk.injEq, true_and] at h
    refine ⟨_, inject_no_growth hsz buf dsdt [] O S hlen hm hoff hsize (by omega) (by omega) hnew,
      ?_, ?_⟩
    · rw [← h]
      simp only [List.nil_append, List.append_assoc]
    · rw [← h]
      have e : out ++ List.take O buf ++ dsdt ++ List.replicate (S - dsdt.length) 0
          ++ List.drop (O + S) buf
          = out ++ ([] ++ List.take O buf ++ dsdt ++ List.replicate (S - dsdt.length) 0
            ++ List.drop (O + S) buf) := by
        simp only [List.nil_append, List.append_assoc]
      rw [e]
      exact happ out _

/-- Witness of C20 on `sampleModule`: Extract onto `out = 09` returns `09`
followed by the table, and on `sampleBadMagic` it fails and returns `09`. -/
theorem C20_out_frame_witness :
    (∃ r, extractDSDTfromAmiboardInfo 4 sampleModule [] = some (ERR_SUCCESS, r) ∧
      ([9] ++ (sampleModule.drop 4).take 12 : QByteArray) = [9] ++ r ∧
      (([9] ++ (sampleModule.drop 4).take 12 : QByteArray) = r ↔ ([9] : QByteArray) = [])) ∧
    ([9] : QByteArray) = [9] :=
  ⟨C20_out_frame.2.2.1 4 sampleModule [9] ([9] ++ (sampleModule.drop 4).take 12) (by decide),
   C20_out_frame.1 4 sampleBadMagic [9] ERR_INVALID_FILE [9] (by decide) (by decide)⟩

end OZM
